import Mathlib

/-!
Verification of `ophyd_async.epics.pvi.pvi` (PVI discovery / reconciliation).

The Python source is shallowly embedded:
* Python type-hint objects (`Optional[T]`, `DeviceVector[T]`, `Signal`,
  `Signal[dtype]`, `Device` subclasses with declared attribute hints) become the
  inductive `DeclType`.
* `typing.get_origin` / `typing.get_args` and the helpers `_strip_union` /
  `_strip_device_vector` are translated one-for-one.
* Stateful code (building `PVIEntry.sub_entries`, `setattr` on devices) is
  modelled by explicit dictionaries (`List (key × value)` with Python-dict
  update semantics: replace in place, else append) threaded functionally.
* Exceptions become `Except PviError` / `Option`; the nested-table recursion of
  `_get_pvi_entries` gets an explicit fuel (Python's call stack); running out of
  fuel is a distinct error that no claim exercises.
* The remote transport (`PvaSignalBackend.connect(timeout)` followed by
  `get_value()["pvi"]`) is an oracle `fetch : String → Nat → Except PviError PvaTable`
  taking the pv name and the timeout used for the connect.
-/

namespace Pvi

/-- Python dict lookup `d.get(k)` / `k in d` over an insertion-ordered dict
modelled as an association list. -/
def dictGet {β : Type} : List (String × β) → String → Option β
  | [], _ => none
  | (k', v) :: rest, k => if k' = k then some v else dictGet rest k

/-- Python dict lookup for `Nat` keys (`DeviceVector` indices). -/
def dictGetN {β : Type} : List (Nat × β) → Nat → Option β
  | [], _ => none
  | (k', v) :: rest, k => if k' = k then some v else dictGetN rest k

/-- Python dict assignment `d[k] = v`: replaces the value in place (keeping the
key's position) when the key is present, otherwise appends. -/
def dictSet {β : Type} : List (String × β) → String → β → List (String × β)
  | [], k, v => [(k, v)]
  | (k', v') :: rest, k, v =>
    if k' = k then (k, v) :: rest else (k', v') :: dictSet rest k v

/-- `dictSet` for `Nat` keys. -/
def dictSetN {β : Type} : List (Nat × β) → Nat → β → List (Nat × β)
  | [], k, v => [(k, v)]
  | (k', v') :: rest, k, v =>
    if k' = k then (k, v) :: rest else (k', v') :: dictSetN rest k v

/-- Models Python `s.endswith(t)` on the character lists of the strings. -/
def endsWithStr (s t : String) : Bool :=
  decide (t.data.length ≤ s.data.length) &&
    decide (s.data.drop (s.data.length - t.data.length) = t.data)

/-- A value type carried by a parameterized signal declaration (`Signal[X]`).
The code never inspects it, so an abstract name suffices. -/
abbrev Dtype := String

/-- Python type-hint objects as they occur in this module:
`Optional[T]` (i.e. `Union[T, None]`), `DeviceVector[T]`, the `Signal` class,
a parameterized `Signal[dtype]` alias, and a `Device` subclass together with
its declared attribute hints (what `get_type_hints` returns for it). -/
inductive DeclType where
  | optionalT (t : DeclType)
  | vectorT (t : DeclType)
  | signalT (dtype : Option Dtype)
  | deviceT (hints : List (String × DeclType))

/-- The possible results of `typing.get_origin` on a `DeclType`.  Note that
`typing.Optional` itself (the special form) is a possible Python object to
compare against, but `get_origin` never returns it: `Optional[X]` is
`Union[X, None]`, whose origin is `typing.Union`. -/
inductive PyOrigin where
  | union
  | deviceVector
  | signalO
  | optionalForm
deriving DecidableEq

/-- `typing.get_origin`: `Optional[X] = Union[X, None] ↦ typing.Union`,
`DeviceVector[X] ↦ DeviceVector`, `Signal[d] ↦ Signal`, bare classes ↦ `None`.
It never yields `PyOrigin.optionalForm` (the `typing.Optional` special form). -/
def get_origin : DeclType → Option PyOrigin
  | .optionalT _ => some .union
  | .vectorT _ => some .deviceVector
  | .signalT (some _) => some .signalO
  | .signalT none => none
  | .deviceT _ => none

theorem get_origin_ne_optionalForm (t : DeclType) :
    get_origin t ≠ some PyOrigin.optionalForm := by
  cases t with
  | optionalT t => simp [get_origin]
  | vectorT t => simp [get_origin]
  | signalT d => cases d <;> simp [get_origin]
  | deviceT h => simp [get_origin]

/-- `_strip_union`: if the hint is a `Union`, return its first non-`None`
argument (for `Optional[X] = Union[X, None]` that is `X`); otherwise return the
hint unchanged.  (Lines 47-53 of the source.) -/
def _strip_union : DeclType → DeclType
  | .optionalT t => t
  | t => t

/-- `_strip_device_vector`: if the hint's origin is `DeviceVector`, return
`(True, its argument)`, else `(False, the hint)`.  (Lines 56-59.) -/
def _strip_device_vector : DeclType → Bool × DeclType
  | .vectorT t => (true, t)
  | t => (false, t)

/-- The `issubclass(..., Signal)` test of `_parse_type` (lines 121-123):
true exactly for `Signal` and `Signal[d]`; `Device` subclasses and
`DeviceVector` are not signal classes. -/
def isSignalType : DeclType → Bool
  | .signalT _ => true
  | _ => false

/-- `typing.get_args` restricted to value-type arguments: `Signal[d] ↦ (d,)`,
everything else (including the bare `Signal` class) ↦ `()`. -/
def get_args_dtype : DeclType → List Dtype
  | .signalT (some d) => [d]
  | _ => []

/-- `typing.get_type_hints(entry.common_device_type)` as called on lines
213-215 of the source.  There the argument is always a class — the root entry
carries `type(device)` and a nested entry carries the `device_type` that
`_parse_type` produced for a table row, a `Device` subclass (`Device` itself
for an undeclared table, the union/vector-stripped declared class otherwise) —
so the call returns the class's hints dict: the declared attributes of a
`Device` subclass, only the skipped `_name`/`parent` bookkeeping names (modelled
as the empty dict) for anything else.  The general `typing.get_type_hints`,
which can also receive a parameterized alias and then raises, is
`get_type_hints` below. -/
def get_type_hints_class : DeclType → List (String × DeclType)
  | .deviceT hints => hints
  | _ => []

/-- Errors raised by the module (all Python exceptions are fatal to the
enclosing discovery call; none is caught inside the module). -/
inductive PviError where
  /-- `RuntimeError("Top level entry must be a pvi table")` -/
  | notPviTable
  /-- `RuntimeError("sub device `name:...` was not provided by pvi")` from
  `_verify_common_blocks`; carries the missing name and the declared hint the
  message is built from. -/
  | missingChild (name : String) (declared : DeclType)
  /-- `KeyError` from `entry.sub_entries[sub_name]` (dead code, see
  `get_origin_ne_optionalForm`). -/
  | keyErrorStr (k : String)
  /-- `KeyError` from `_pvi_mapping[frozenset(...)]`: unsupported access-mode
  set. -/
  | keyErrorAccess (ks : Finset String)
  /-- `IndexError` from `get_args(device_type)[0]` in `_parse_type`. -/
  | indexError
  /-- `TypeError` from calling a signal constructor with the wrong number of
  pv arguments. -/
  | typeErrorArity
  /-- `TypeError` from `entry.sub_entries[name][num] = ...` when the slot holds
  a single `PVIEntry` rather than a dict. -/
  | typeErrorItemAssign
  /-- `AssertionError` from the `assert match` of `_strip_number_from_string`
  (reachable only for child names on which the regex fails to match, i.e.
  names containing a newline before the trailing digits). -/
  | assertionError
  /-- A remote fetch timed out (`connect(timeout=...)` raised). -/
  | timeoutError
  /-- Fuel exhaustion of the embedded recursion (models Python's call stack;
  never hit with fuel above the table-nesting depth). -/
  | recursionLimit
  /-- `TypeError("... is not a module, class, method, or function.")` from
  `typing.get_type_hints` applied to a parameterized `typing` alias
  (`Optional[X]` or `Signal[d]`), as `_verify_common_blocks` can do when it
  recurses with the raw, unstripped declared hint (lines 88-93). -/
  | typeErrorNotClass

/-- `typing.get_type_hints` on the objects this module passes it.  A class
(a `Device` subclass, or the bare `Signal`/`Device` classes whose annotations
are only the skipped `_name`/`parent` bookkeeping names) yields its hints dict.
A `typing` alias — `Optional[X] = Union[X, None]` or the parameterized
`Signal[d]` — has no `__annotations__` and is not a module, class, method or
function: `TypeError`.  A `DeviceVector[X]` alias is a `types.GenericAlias`
(the real `DeviceVector` subclasses `Dict[int, VT]`), which relays
`__annotations__` to the `DeviceVector` class itself, so the call returns only
bookkeeping names, modelled as the empty dict. -/
def get_type_hints : DeclType → Except PviError (List (String × DeclType))
  | .deviceT hints => .ok hints
  | .signalT none => .ok []
  | .vectorT _ => .ok []
  | .signalT (some _) => .error .typeErrorNotClass
  | .optionalT _ => .error .typeErrorNotClass

/-- Result record of `_parse_type` (its 4-tuple). -/
structure ParsedType where
  is_device_vector : Bool
  is_signal : Bool
  signal_dtype : Option Dtype
  device_type : DeclType

/-- `_parse_type` (lines 111-145).  Three tiers: declared type (strip
`Optional`/`DeviceVector`, then test for a signal class), nested table
(collection iff a numeric suffix was present, generic `Device` type), bare
leaf (a generic `Signal`, never a collection).  In the declared-signal branch
the source runs `signal_dtype = get_args(device_type)[0]`, which raises
`IndexError` when the declared signal type carries no value-type parameter. -/
def _parse_type (is_pvi_table : Bool) (number_suffix : Option Nat)
    (common_device_type : Option DeclType) : Except PviError ParsedType :=
  match common_device_type with
  | some cdt =>
    let dt0 := _strip_union cdt
    let is_device_vector := (_strip_device_vector dt0).1
    let device_type := (_strip_device_vector dt0).2
    if isSignalType device_type then
      match get_args_dtype device_type with
      | dtype :: _ => .ok ⟨is_device_vector, true, some dtype, device_type⟩
      | [] => .error .indexError
    else
      .ok ⟨is_device_vector, false, none, device_type⟩
  | none =>
    if is_pvi_table then
      .ok ⟨number_suffix.isSome, false, none, .deviceT []⟩
    else
      .ok ⟨false, true, none, .signalT none⟩

/-- A constructed epics signal (the four `epics_signal_*` constructors are
external collaborators; only the constructor used and its arguments matter). -/
inductive SignalObj where
  | rw (dtype : Option Dtype) (read_pv : String) (write_pv : String)
  | ro (dtype : Option Dtype) (read_pv : String)
  | wo (dtype : Option Dtype) (write_pv : String)
  | x (write_pv : String)
deriving DecidableEq

/-- `_pvi_mapping` (lines 96-108): a dict from frozensets of access-mode tags
to signal constructors.  Lookup of an absent key is a `KeyError` (`none`).
Each lambda takes the dtype and the positional pv list; a wrong number of pvs
is a Python `TypeError` (`none` from the returned function). -/
def _pvi_mapping (ks : Finset String) :
    Option (Option Dtype → List String → Option SignalObj) :=
  if ks = {"r", "w"} then
    some fun dtype pvs =>
      match pvs with
      | [read_pv, write_pv] =>
        some (.rw dtype ("pva://" ++ read_pv) ("pva://" ++ write_pv))
      | _ => none
  else if ks = {"rw"} then
    some fun dtype pvs =>
      match pvs with
      | [read_write_pv] =>
        some (.rw dtype ("pva://" ++ read_write_pv) ("pva://" ++ read_write_pv))
      | _ => none
  else if ks = {"r"} then
    some fun dtype pvs =>
      match pvs with
      | [read_pv] => some (.ro dtype ("pva://" ++ read_pv))
      | _ => none
  else if ks = {"w"} then
    some fun dtype pvs =>
      match pvs with
      | [write_pv] => some (.wo dtype ("pva://" ++ write_pv))
      | _ => none
  else if ks = {"x"} then
    some fun _ pvs =>
      match pvs with
      | [write_pv] => some (.x ("pva://" ++ write_pv))
      | _ => none
  else
    none

/-- `_pvi_mapping[ks](dtype, *pvs)` flattened for stating properties. -/
def buildSignal (ks : Finset String) (dtype : Option Dtype) (pvs : List String) :
    Option SignalObj :=
  match _pvi_mapping ks with
  | none => none
  | some ctor => ctor dtype pvs

/-- `device = _pvi_mapping[frozenset(pva_entries.keys())](signal_dtype, *pvs)`
(line 227) with its two failure modes: `KeyError` on the frozenset lookup,
`TypeError` when the constructor receives the wrong number of pvs. -/
def buildSignalE (ks : Finset String) (dtype : Option Dtype) (pvs : List String) :
    Except PviError SignalObj :=
  match _pvi_mapping ks with
  | none => .error (.keyErrorAccess ks)
  | some ctor =>
    match ctor dtype pvs with
    | none => .error .typeErrorArity
    | some s => .ok s

/-! ### `_strip_number_from_string` (lines 36-44)

The source runs `re.match(r"(.*?)(\d*)$", string)` and asserts the match.
Python `re` semantics embedded below:
* `.` matches any character except a newline;
* `$` matches at the end of the string, or just before a newline that is the
  last character;
* `(.*?)` is lazy: the engine tries the shortest prefix first;
* `(\d*)` is greedy with backtracking: for a fixed prefix end `i` it first
  consumes the maximal digit run from `i` and then gives digits back until `$`
  matches.
`\d` is modelled as the decimal digits `0`-`9` (the ASCII case of Python's
Unicode digit class).  A failed match makes `assert match` raise
`AssertionError`, modelled as `none`. -/

/-- `\d` on a character. -/
def isDigitChar (c : Char) : Bool := c.isDigit

/-- Positions where `$` matches in `l`. -/
def dollarAt (l : List Char) (k : Nat) : Bool :=
  k == l.length || (k + 1 == l.length && l.getLast? == some '\n')

/-- Length of the maximal digit run of `l` starting at position `i`
(what a greedy `\d*` first consumes). -/
def digitRunLen (l : List Char) (i : Nat) : Nat :=
  ((l.drop i).takeWhile isDigitChar).length

/-- Backtracking of `\d*`: with prefix end `i` and `j` digits consumed, find
the largest `k ≤ i + j` at which `$` matches. -/
def backDollar (l : List Char) (i : Nat) : Nat → Option Nat
  | 0 => if dollarAt l i then some i else none
  | j + 1 =>
    if dollarAt l (i + j + 1) then some (i + j + 1) else backDollar l i j

/-- `.` cannot match a newline, so a candidate prefix must be newline-free. -/
def noNl (l : List Char) : Bool := l.all (· ≠ '\n')

/-- Try the regex with the lazy group ending at position `i`: the prefix
`l.take i` must be newline-free, then `\d*$` must match from `i`.  Returns the
end positions `(i, k)` of the two groups. -/
def tryAt (l : List Char) (i : Nat) : Option (Nat × Nat) :=
  if noNl (l.take i) then (backDollar l i (digitRunLen l i)).map (fun k => (i, k))
  else none

/-- The lazy search: try `i = start, start+1, ...` (bounded by fuel). -/
def searchFrom (l : List Char) : Nat → Nat → Option (Nat × Nat)
  | _, 0 => none
  | i, fuel + 1 =>
    match tryAt l i with
    | some r => some r
    | none => searchFrom l (i + 1) fuel

/-- `re.match(r"(.*?)(\d*)$", ...)`: group ends `(i, k)` of the first match,
or `none` when the pattern does not match. -/
def pyMatch (l : List Char) : Option (Nat × Nat) :=
  searchFrom l 0 (l.length + 1)

/-- `int(...)` on a digit string. -/
def digitsToNat (l : List Char) : Nat :=
  l.foldl (fun a c => a * 10 + (c.toNat - 48)) 0

/-- `_strip_number_from_string` (lines 36-44): match the regex (a failed
match is the `assert` failing, i.e. `none`), group 1 is the name, group 2 (if
nonempty) parsed with `int` is the number. -/
def _strip_number_from_string (s : String) : Option (String × Option Nat) :=
  match pyMatch s.data with
  | none => none
  | some (i, k) =>
    let name := String.mk (s.data.take i)
    let digits := (s.data.drop i).take (k - i)
    some (name, if digits.isEmpty then none else some (digitsToNat digits))

/-- The maximal trailing digit run of `l`. -/
def digitsSuffix (l : List Char) : List Char :=
  (l.reverse.takeWhile isDigitChar).reverse

/-- Everything before the maximal trailing digit run. -/
def namePart (l : List Char) : List Char :=
  (l.reverse.dropWhile isDigitChar).reverse

/-- The specification's description of the name parser, written from its
words: split off the maximal trailing run of decimal digits; the prefix keeps
everything before it; the run, when nonempty, is parsed as a number. -/
def splitTrailingDigits (s : String) : String × Option Nat :=
  (String.mk (namePart s.data),
   if (digitsSuffix s.data).isEmpty then none
   else some (digitsToNat (digitsSuffix s.data)))

/-! ### Behaviour of the name parser on newline-free input -/

theorem namePart_append_digitsSuffix (l : List Char) :
    namePart l ++ digitsSuffix l = l := by
  have h : l.reverse.takeWhile isDigitChar ++ l.reverse.dropWhile isDigitChar
      = l.reverse := List.takeWhile_append_dropWhile isDigitChar l.reverse
  calc namePart l ++ digitsSuffix l
      = (l.reverse.takeWhile isDigitChar ++ l.reverse.dropWhile isDigitChar).reverse := by
        rw [List.reverse_append]
        rfl
    _ = l := by rw [h, List.reverse_reverse]

theorem digitsSuffix_all (l : List Char) :
    (digitsSuffix l).all isDigitChar = true := by
  rw [List.all_eq_true]
  intro c hc
  rw [digitsSuffix, List.mem_reverse] at hc
  exact List.mem_takeWhile_imp hc

theorem namePart_getLast?_not_digit (l : List Char) {c : Char}
    (h : (namePart l).getLast? = some c) : isDigitChar c = false := by
  rw [namePart, List.getLast?_eq_head?_reverse, List.reverse_reverse] at h
  have h2 := List.head?_dropWhile_not isDigitChar l.reverse
  rw [h] at h2
  exact h2

theorem length_namePart_add (l : List Char) :
    (namePart l).length + (digitsSuffix l).length = l.length := by
  have h := congrArg List.length (namePart_append_digitsSuffix l)
  simpa using h

theorem drop_namePart (l : List Char) :
    l.drop (namePart l).length = digitsSuffix l := by
  have h := List.drop_left (namePart l) (digitsSuffix l)
  rw [namePart_append_digitsSuffix] at h
  exact h

theorem take_namePart (l : List Char) :
    l.take (namePart l).length = namePart l := by
  have h := List.take_left (namePart l) (digitsSuffix l)
  rw [namePart_append_digitsSuffix] at h
  exact h

theorem not_all_of_lt_namePart {l : List Char} {i : Nat}
    (h : i < (namePart l).length) : (l.drop i).all isDigitChar = false := by
  by_contra hall
  rw [Bool.not_eq_false] at hall
  have hne : (namePart l).drop i ≠ [] := by
    intro hnil
    have hlen := congrArg List.length hnil
    simp [List.length_drop] at hlen
    omega
  have h1 : (namePart l).getLast? = ((namePart l).drop i).getLast? := by
    conv_lhs => rw [← List.take_append_drop i (namePart l)]
    exact List.getLast?_append_of_ne_nil _ hne
  obtain ⟨c, hc⟩ : ∃ c, ((namePart l).drop i).getLast? = some c := by
    cases hx : ((namePart l).drop i).getLast? with
    | none => exact absurd (List.getLast?_eq_none_iff.mp hx) hne
    | some c => exact ⟨c, rfl⟩
  have hcd : isDigitChar c = false := namePart_getLast?_not_digit l (h1.trans hc)
  have hmem : c ∈ l.drop i := by
    have hsplit : l.drop i = (namePart l).drop i ++ digitsSuffix l := by
      have h2 : (namePart l ++ digitsSuffix l).drop i
          = (namePart l).drop i ++ digitsSuffix l :=
        List.drop_append_of_le_length (Nat.le_of_lt h)
      rw [namePart_append_digitsSuffix] at h2
      exact h2
    rw [hsplit]
    exact List.mem_append_left _ (List.mem_of_mem_getLast? hc)
  have := (List.all_eq_true.mp hall) c hmem
  rw [hcd] at this
  exact Bool.false_ne_true this

theorem all_of_namePart_le {l : List Char} {i : Nat}
    (h : (namePart l).length ≤ i) : (l.drop i).all isDigitChar = true := by
  rw [List.all_eq_true]
  intro c hc
  have heq : l.drop i = (digitsSuffix l).drop (i - (namePart l).length) := by
    have h2 : (namePart l ++ digitsSuffix l).drop
          ((namePart l).length + (i - (namePart l).length))
        = (digitsSuffix l).drop (i - (namePart l).length) :=
      List.drop_append (i - (namePart l).length)
    rw [namePart_append_digitsSuffix] at h2
    rw [← h2]
    congr 1
    omega
  rw [heq] at hc
  exact (List.all_eq_true.mp (digitsSuffix_all l)) c (List.mem_of_mem_drop hc)

theorem takeWhile_length_eq_iff {p : Char → Bool} :
    ∀ {m : List Char}, (m.takeWhile p).length = m.length ↔ m.all p = true := by
  intro m
  induction m with
  | nil => simp
  | cons c m ih =>
    cases hpc : p c with
    | true => simp [List.takeWhile_cons, hpc, ih]
    | false => simp [List.takeWhile_cons, hpc]

theorem beq_getLast?_newline_eq_false {l : List Char} (h : noNl l = true) :
    (l.getLast? == some '\n') = false := by
  cases hl : l.getLast? with
  | none => rfl
  | some c =>
    have hc : c ∈ l := List.mem_of_mem_getLast? hl
    have hne := (List.all_eq_true.mp h) c hc
    simp only [decide_eq_true_eq] at hne
    simp [hne]

theorem dollarAt_of_noNl {l : List Char} (h : noNl l = true) (k : Nat) :
    dollarAt l k = (k == l.length) := by
  rw [dollarAt, beq_getLast?_newline_eq_false h]
  simp

theorem backDollar_of_noNl {l : List Char} (h : noNl l = true) :
    ∀ (j i : Nat), backDollar l i j
      = if i ≤ l.length ∧ l.length ≤ i + j then some l.length else none := by
  intro j
  induction j with
  | zero =>
    intro i
    rw [backDollar, dollarAt_of_noNl h]
    by_cases hi : i = l.length
    · subst hi
      simp
    · have : (i == l.length) = false := by simp [hi]
      rw [this]
      simp only [Bool.false_eq_true, if_false]
      rw [if_neg (by omega)]
  | succ j ih =>
    intro i
    rw [backDollar, dollarAt_of_noNl h]
    by_cases hi : i + j + 1 = l.length
    · have : (i + j + 1 == l.length) = true := by simp [hi]
      rw [this]
      simp only [if_true]
      rw [if_pos (by omega), hi]
    · have : (i + j + 1 == l.length) = false := by simp [hi]
      rw [this]
      simp only [Bool.false_eq_true, if_false, ih i]
      by_cases hcond : i ≤ l.length ∧ l.length ≤ i + j
      · rw [if_pos hcond, if_pos (by omega)]
      · rw [if_neg hcond, if_neg (by omega)]

theorem tryAt_of_noNl {l : List Char} (h : noNl l = true) {i : Nat}
    (hi : i ≤ l.length) :
    tryAt l i = if (l.drop i).all isDigitChar then some (i, l.length) else none := by
  have htake : noNl (l.take i) = true := by
    rw [noNl, List.all_eq_true]
    intro c hc
    exact (List.all_eq_true.mp h) c (List.take_subset i l hc)
  rw [tryAt, if_pos htake, backDollar_of_noNl h]
  by_cases hall : (l.drop i).all isDigitChar = true
  · have hrun : digitRunLen l i = l.length - i := by
      rw [digitRunLen, takeWhile_length_eq_iff.mpr hall, List.length_drop]
    rw [hrun, if_pos (by omega), hall]
    simp
  · have hle : digitRunLen l i ≤ l.length - i := by
      have hsub : List.Sublist ((l.drop i).takeWhile isDigitChar) (l.drop i) :=
        List.takeWhile_sublist isDigitChar
      have h2 := hsub.length_le
      rw [List.length_drop] at h2
      exact h2
    have hne : digitRunLen l i ≠ l.length - i := by
      intro hEq
      apply hall
      apply takeWhile_length_eq_iff.mp
      rw [List.length_drop]
      exact hEq
    rw [if_neg (by omega)]
    simp [hall]

theorem searchFrom_of_noNl {l : List Char} (h : noNl l = true) :
    ∀ (fuel start : Nat), start ≤ (namePart l).length →
      (namePart l).length < start + fuel →
      searchFrom l start fuel = some ((namePart l).length, l.length) := by
  intro fuel
  induction fuel with
  | zero =>
    intro start h1 h2
    omega
  | succ f ih =>
    intro start h1 h2
    have hAn : (namePart l).length ≤ l.length := by
      have := length_namePart_add l
      omega
    rcases Nat.lt_or_ge start (namePart l).length with hlt | hge
    · rw [searchFrom, tryAt_of_noNl h (by omega), if_neg]
      · exact ih (start + 1) (by omega) (by omega)
      · simp [not_all_of_lt_namePart hlt]
    · have heq : start = (namePart l).length := by omega
      subst heq
      rw [searchFrom, tryAt_of_noNl h hAn, if_pos]
      exact all_of_namePart_le (Nat.le_refl _)

theorem pyMatch_of_noNl {l : List Char} (h : noNl l = true) :
    pyMatch l = some ((namePart l).length, l.length) := by
  apply searchFrom_of_noNl h (l.length + 1) 0 (Nat.zero_le _)
  have := length_namePart_add l
  omega

theorem strip_number_eq_split (s : String) (h : noNl s.data = true) :
    _strip_number_from_string s = some (splitTrailingDigits s) := by
  have hA := take_namePart s.data
  have hB := drop_namePart s.data
  have hlen : s.data.length - (namePart s.data).length = (digitsSuffix s.data).length := by
    have := length_namePart_add s.data
    omega
  simp only [_strip_number_from_string, pyMatch_of_noNl h, hA, hB, hlen,
    List.take_length, splitTrailingDigits]

/-! ### Device trees, discovery entries -/

/-- A materialized device object: an epics signal, a `Device` (with its named
attribute dict), or a `DeviceVector` (indexed dict).  Parent back-references
(used only by external name propagation) are not modelled; the tree structure
already determines them. -/
inductive DeviceObj where
  | signal (s : SignalObj)
  | block (children : List (String × DeviceObj))
  | vector (entries : List (Nat × DeviceObj))

/-- A simulated device built by `_sim_common_blocks`: a signal over a
`SimSignalBackend(dtype, sub_name)`, a device node, or a `DeviceVector`. -/
inductive SimDevice where
  | simSignal (dtype : Option Dtype) (backend_name : String)
  | node (children : List (String × SimDevice))
  | vector (entries : List (Nat × SimDevice))

/-- The structural shape of a device tree: endpoint leaves, named children,
indexed collections.  Value-level content (pv addresses, dtypes, backends) is
erased. -/
inductive Shape where
  | leaf
  | node (children : List (String × Shape))
  | coll (entries : List (Nat × Shape))

mutual
def shapeOfDevice : DeviceObj → Shape
  | .signal _ => .leaf
  | .block cs => .node (shapeOfChildren cs)
  | .vector es => .coll (shapeOfEntries es)

def shapeOfChildren : List (String × DeviceObj) → List (String × Shape)
  | [] => []
  | (n, d) :: rest => (n, shapeOfDevice d) :: shapeOfChildren rest

def shapeOfEntries : List (Nat × DeviceObj) → List (Nat × Shape)
  | [] => []
  | (k, d) :: rest => (k, shapeOfDevice d) :: shapeOfEntries rest
end

mutual
def shapeOfSim : SimDevice → Shape
  | .simSignal _ _ => .leaf
  | .node cs => .node (shapeOfSimChildren cs)
  | .vector es => .coll (shapeOfSimEntries es)

def shapeOfSimChildren : List (String × SimDevice) → List (String × Shape)
  | [] => []
  | (n, d) :: rest => (n, shapeOfSim d) :: shapeOfSimChildren rest

def shapeOfSimEntries : List (Nat × SimDevice) → List (Nat × Shape)
  | [] => []
  | (k, d) :: rest => (k, shapeOfSim d) :: shapeOfSimEntries rest
end

mutual
/-- `PVIEntry` (lines 62-72): one node of the transient discovery tree. -/
inductive PVIEntry where
  | mk (sub_entries : List (String × PVISub)) (pvi_pv : Option String)
      (device : Option DeviceObj) (common_device_type : Option DeclType)

/-- A slot of `PVIEntry.sub_entries`: either a single entry or a
`Dict[int, PVIEntry]` collecting a device vector. -/
inductive PVISub where
  | single (e : PVIEntry)
  | dict (entries : List (Nat × PVIEntry))
end

/-! ### `_verify_common_blocks` (lines 75-93)

For every declared hint (skipping `_name`/`parent`): raise
`RuntimeError` when the name is absent from the discovered children and
`get_origin(sub_device) is not Optional` — by `get_origin_ne_optionalForm`
that second conjunct is always true, so an absent name always raises; then
recurse into the stored child(ren) with the declared hint.  The
`entry.sub_entries[sub_name]` access after the membership test would be a
`KeyError` for an absent name, but it is dead code for the same reason.
An entry with no discovered children returns immediately. -/

theorem sizeOf_dictGet {β : Type} [SizeOf β] :
    ∀ (l : List (String × β)) (k : String) (v : β),
      dictGet l k = some v → sizeOf v < sizeOf l := by
  intro l
  induction l with
  | nil => intro k v h; simp [dictGet] at h
  | cons p rest ih =>
    intro k v h
    obtain ⟨k', v'⟩ := p
    simp only [dictGet] at h
    by_cases hk : k' = k
    · simp [hk] at h
      subst h
      simp only [List.cons.sizeOf_spec, Prod.mk.sizeOf_spec]
      omega
    · simp [hk] at h
      have := ih k v h
      simp only [List.cons.sizeOf_spec, Prod.mk.sizeOf_spec]
      omega

theorem one_le_sizeOf_declType (t : DeclType) : 1 ≤ sizeOf t := by
  cases t <;> simp

theorem sizeOf_get_type_hints_ok_le {t : DeclType}
    {hints : List (String × DeclType)} (h : get_type_hints t = .ok hints) :
    sizeOf hints ≤ sizeOf t := by
  cases t with
  | deviceT hs =>
    simp [get_type_hints] at h
    subst h
    simp only [DeclType.deviceT.sizeOf_spec]
    omega
  | signalT o =>
    cases o with
    | none =>
      simp [get_type_hints] at h
      subst h
      simp only [DeclType.signalT.sizeOf_spec, List.nil.sizeOf_spec]
      omega
    | some d => simp [get_type_hints] at h
  | optionalT u => simp [get_type_hints] at h
  | vectorT u =>
    simp [get_type_hints] at h
    subst h
    simp only [DeclType.vectorT.sizeOf_spec, List.nil.sizeOf_spec]
    omega

mutual
def _verify_common_blocks : PVIEntry → DeclType → Except PviError Unit
  | .mk sub_entries _ _ _, common_device =>
    if sub_entries.isEmpty then .ok ()
    else
      match hG : get_type_hints common_device with
      | .error e => .error e
      | .ok common_sub_devices => verifyHints sub_entries common_sub_devices
termination_by e t => sizeOf e + sizeOf t
decreasing_by
  have h1 := sizeOf_get_type_hints_ok_le hG
  simp only [PVIEntry.mk.sizeOf_spec]
  omega

def verifyHints (sub_entries : List (String × PVISub)) :
    List (String × DeclType) → Except PviError Unit
  | [] => .ok ()
  | (sub_name, sub_device) :: rest =>
    if sub_name = "_name" ∨ sub_name = "parent" then
      verifyHints sub_entries rest
    else if (dictGet sub_entries sub_name).isNone
        && decide (get_origin sub_device ≠ some .optionalForm) then
      .error (.missingChild sub_name sub_device)
    else
      match h : dictGet sub_entries sub_name with
      | none => .error (.keyErrorStr sub_name)
      | some (.dict m) =>
        match verifyVec m sub_device with
        | .error e => .error e
        | .ok () => verifyHints sub_entries rest
      | some (.single e') =>
        match _verify_common_blocks e' sub_device with
        | .error e => .error e
        | .ok () => verifyHints sub_entries rest
termination_by hints => sizeOf sub_entries + sizeOf hints
decreasing_by
  · simp only [List.cons.sizeOf_spec, Prod.mk.sizeOf_spec]; omega
  · have h2 := sizeOf_dictGet sub_entries sub_name (.dict m) h
    simp only [PVISub.dict.sizeOf_spec] at h2
    simp only [List.cons.sizeOf_spec, Prod.mk.sizeOf_spec]
    omega
  · simp only [List.cons.sizeOf_spec, Prod.mk.sizeOf_spec]; omega
  · have h2 := sizeOf_dictGet sub_entries sub_name (.single e') h
    simp only [PVISub.single.sizeOf_spec] at h2
    simp only [List.cons.sizeOf_spec, Prod.mk.sizeOf_spec]
    omega
  · simp only [List.cons.sizeOf_spec, Prod.mk.sizeOf_spec]; omega

def verifyVec : List (Nat × PVIEntry) → DeclType → Except PviError Unit
  | [], _ => .ok ()
  | (_, e') :: rest, sub_device =>
    match _verify_common_blocks e' sub_device with
    | .error e => .error e
    | .ok () => verifyVec rest sub_device
termination_by m t => sizeOf m + sizeOf t
decreasing_by
  · simp only [List.cons.sizeOf_spec, Prod.mk.sizeOf_spec]; omega
  · simp only [List.cons.sizeOf_spec, Prod.mk.sizeOf_spec]; omega
end

/-! ### `_set_device_attributes` (lines 255-271)

Functional reading of the mutation: the returned `DeviceObj` is the entry's
device with, for every slot of `sub_entries` in order, `setattr(entry.device,
sub_name, sub_device)` applied — a dict slot becomes a `DeviceVector` of the
member devices, a single slot the member device itself; members carrying a
`pvi_pv` (nested tables) are populated recursively first.  The
`parent` assignments are not modelled (the tree determines them). -/

/-- The `setattr` loop applied to a device: fold Python attribute assignment
over the computed children. -/
def setAttrs (base : DeviceObj) (new : List (String × DeviceObj)) : DeviceObj :=
  match base with
  | .block cs => .block (new.foldl (fun acc p => dictSet acc p.1 p.2) cs)
  | other => other

mutual
def _set_device_attributes : PVIEntry → DeviceObj
  | .mk subs _ device _ =>
    setAttrs (device.getD (.block [])) (materializeSubs subs)
termination_by e => sizeOf e
decreasing_by
  simp only [PVIEntry.mk.sizeOf_spec]
  omega

def materializeSubs : List (String × PVISub) → List (String × DeviceObj)
  | [] => []
  | (n, s) :: rest => (n, materializeSub s) :: materializeSubs rest
termination_by l => sizeOf l
decreasing_by
  · simp only [List.cons.sizeOf_spec, Prod.mk.sizeOf_spec]; omega
  · simp only [List.cons.sizeOf_spec, Prod.mk.sizeOf_spec]; omega

def materializeSub : PVISub → DeviceObj
  | .single (.mk subs pvi_pv device cdt) =>
    if pvi_pv.isSome then _set_device_attributes (.mk subs pvi_pv device cdt)
    else device.getD (.block [])
  | .dict m => .vector (materializeVec m)
termination_by s => sizeOf s
decreasing_by
  · simp only [PVISub.single.sizeOf_spec]; omega
  · simp only [PVISub.dict.sizeOf_spec]; omega

def materializeVec : List (Nat × PVIEntry) → List (Nat × DeviceObj)
  | [] => []
  | (k, .mk subs pvi_pv device cdt) :: rest =>
    (k,
      if pvi_pv.isSome then _set_device_attributes (.mk subs pvi_pv device cdt)
      else device.getD (.block [])) :: materializeVec rest
termination_by l => sizeOf l
decreasing_by
  · simp only [List.cons.sizeOf_spec, Prod.mk.sizeOf_spec]; omega
  · simp only [List.cons.sizeOf_spec, Prod.mk.sizeOf_spec]; omega
end

/-! ### `_sim_common_blocks` (lines 148-198)

Functional reading: for a device of declared type `t`, the children attached
by the sim builder are `simBlocks t` (in hint order, skipping
`_name`/`parent`).  A declared collection always gets exactly the two indices
1 and 2; both members are built in the same way (same constructor call, same
recursion with the same stripped type).  Parent assignments are not
modelled. -/

/-- The guarded argument lookup of the sim builder (lines 165 and 185): the
first entry of `get_args(sub_device_t)` when that tuple is non-empty, else
`None`. -/
def signalArg (t : DeclType) : Option Dtype := (get_args_dtype t).head?

theorem sizeOf_strip_union_le (t : DeclType) :
    sizeOf (_strip_union t) ≤ sizeOf t := by
  cases t <;> simp [_strip_union]

theorem sizeOf_strip_device_vector_le (t : DeclType) :
    sizeOf (_strip_device_vector t).2 ≤ sizeOf t := by
  cases t <;> simp [_strip_device_vector]

mutual
/-- One `sub_device` built by the loop body of `_sim_common_blocks` for the
declared attribute `(sub_name, t)`. -/
def simSub (sub_name : String) (t : DeclType) : SimDevice :=
  let sub1 := _strip_union t
  let sub_t := (_strip_device_vector sub1).2
  if (_strip_device_vector sub1).1 then
    if isSignalType sub_t then
      .vector [(1, .simSignal (signalArg sub_t) sub_name),
               (2, .simSignal (signalArg sub_t) sub_name)]
    else
      .vector [(1, .node (simBlocks sub_t)), (2, .node (simBlocks sub_t))]
  else if isSignalType sub_t then
    .simSignal (signalArg sub_t) sub_name
  else
    .node (simBlocks sub_t)
termination_by (sizeOf t, 1)
decreasing_by
  all_goals
    apply Prod.Lex.right'
    · calc sizeOf (_strip_device_vector (_strip_union t)).2
          ≤ sizeOf (_strip_union t) := sizeOf_strip_device_vector_le _
        _ ≤ sizeOf t := sizeOf_strip_union_le t
    · omega

/-- The children `_sim_common_blocks` attaches to a device of (stripped)
declared type `t`: the hints of a device type drive the loop; signal classes
and wrapped aliases have no child hints. -/
def simBlocks (t : DeclType) : List (String × SimDevice) :=
  match t with
  | .deviceT hints => simHints hints
  | _ => []
termination_by (sizeOf t, 0)
decreasing_by
  apply Prod.Lex.left
  simp

/-- The `for sub_name, sub_device_t in get_type_hints(device_t).items()` loop
of `_sim_common_blocks`. -/
def simHints : List (String × DeclType) → List (String × SimDevice)
  | [] => []
  | (sub_name, t) :: rest =>
    if sub_name = "_name" ∨ sub_name = "parent" then simHints rest
    else (sub_name, simSub sub_name t) :: simHints rest
termination_by l => (sizeOf l, 0)
decreasing_by
  all_goals
    apply Prod.Lex.left
    simp only [List.cons.sizeOf_spec, Prod.mk.sizeOf_spec]
    omega
end

/-! ### `_get_pvi_entries` (lines 201-252) and `fill_pvi_entries` (274-298)

The transport is an oracle `fetch pv timeout`, standing for
`PvaSignalBackend(None, pv, pv).connect(timeout=timeout)` followed by
`(await get_value())["pvi"]`; a timeout or connection failure is an error
result.  The nested recursive call (line 249) passes no timeout argument, so
it runs with the default `DEFAULT_TIMEOUT` — only the top-level fetch sees
the caller's timeout. -/

/-- A fetched pvi table: child name to an access-tag → pv dict, in the
remote table's reported order. -/
abbrev PvaTable := List (String × List (String × String))

/-- `ophyd_async.core.utils.DEFAULT_TIMEOUT` (10 seconds; the unit is
irrelevant, only that it is a fixed constant distinct from a caller-supplied
value can matter). -/
def DEFAULT_TIMEOUT : Nat := 10

/-- The `for sub_name, pva_entries in pva_table.items()` loop of
`_get_pvi_entries` (lines 217-249), threading `entry.sub_entries` as `acc`.
`recur` is the nested `await _get_pvi_entries(sub_entry)` call.  The source
stores the sub-entry (lines 235-245) and then lets the recursion fill the
stored (shared, mutable) object in place (lines 247-249); functionally the
aggregation error is checked first, then the recursion result is stored. -/
def pviLoop (recur : PVIEntry → Except PviError PVIEntry)
    (hints : List (String × DeclType)) :
    List (String × PVISub) → PvaTable → Except PviError (List (String × PVISub))
  | acc, [] => .ok acc
  | acc, (sub_name, pva_entries) :: rest =>
    let pvs := pva_entries.map (fun p => p.2)
    let is_pvi_table := decide (pvs.length = 1) && endsWithStr (pvs.headD "") ":PVI"
    match _strip_number_from_string sub_name with
    | none => .error .assertionError
    | some (sub_name_split, sub_number_split) =>
      match _parse_type is_pvi_table sub_number_split (dictGet hints sub_name_split) with
      | .error e => .error e
      | .ok parsed =>
        let deviceE : Except PviError DeviceObj :=
          if parsed.is_signal then
            match buildSignalE (pva_entries.map (fun p => p.1)).toFinset
                parsed.signal_dtype pvs with
            | .error e => .error e
            | .ok s => .ok (.signal s)
          else .ok (.block [])
        match deviceE with
        | .error e => .error e
        | .ok device =>
          let aggCheck : Except PviError Unit :=
            if parsed.is_device_vector then
              match dictGet acc sub_name_split with
              | some (.single _) => .error .typeErrorItemAssign
              | _ => .ok ()
            else .ok ()
          match aggCheck with
          | .error e => .error e
          | .ok () =>
            let subE : Except PviError PVIEntry :=
              if is_pvi_table then
                recur (.mk [] (some (pvs.headD "")) (some device)
                  (some parsed.device_type))
              else
                .ok (.mk [] none (some device) (some parsed.device_type))
            match subE with
            | .error e => .error e
            | .ok sub_entry =>
              let acc' :=
                if parsed.is_device_vector then
                  let idx := sub_number_split.getD 1
                  match dictGet acc sub_name_split with
                  | some (.dict m) =>
                    dictSet acc sub_name_split (.dict (dictSetN m idx sub_entry))
                  | _ => dictSet acc sub_name_split (.dict [(idx, sub_entry)])
                else dictSet acc sub_name (.single sub_entry)
              pviLoop recur hints acc' rest

/-- The tail of `_get_pvi_entries` (lines 251-252): `if
entry.common_device_type: _verify_common_blocks(entry,
entry.common_device_type)` (a type object is always truthy), returning the
filled entry when verification passed. -/
def verifyStep (entry' : PVIEntry) (cdt : Option DeclType) :
    Except PviError PVIEntry :=
  match cdt with
  | some t =>
    match _verify_common_blocks entry' t with
    | .error e => .error e
    | .ok () => .ok entry'
  | none => .ok entry'

/-- `_get_pvi_entries`.  `fuel` bounds the nesting recursion depth (Python's
call stack); the per-call `timeout` is used for this level's fetch only, the
recursion passing `DEFAULT_TIMEOUT` exactly as in the source. -/
def _get_pvi_entries (fetch : String → Nat → Except PviError PvaTable) :
    Nat → PVIEntry → Nat → Except PviError PVIEntry
  | 0, _, _ => .error .recursionLimit
  | fuel + 1, .mk sub_entries pvi_pv device cdt, timeout =>
    match pvi_pv with
    | none => .error .notPviTable
    | some pv =>
      if endsWithStr pv ":PVI" = false then .error .notPviTable
      else
        match fetch pv timeout with
        | .error e => .error e
        | .ok pva_table =>
          let hints := match cdt with | some t => get_type_hints_class t | none => []
          match pviLoop (fun se => _get_pvi_entries fetch fuel se DEFAULT_TIMEOUT)
              hints sub_entries pva_table with
          | .error e => .error e
          | .ok new_subs =>
            verifyStep (PVIEntry.mk new_subs pvi_pv device cdt) cdt

/-- The attribute dict of a block device. -/
def blockChildren : DeviceObj → List (String × DeviceObj)
  | .block cs => cs
  | _ => []

/-- `fill_pvi_entries` (lines 274-298), live path (`sim=False`).  The state
visible to the caller is the root device's attribute dict `rootChildren`; the
result pairs the call's outcome with that dict afterwards.  A raised
exception propagates before `_set_device_attributes` runs — `_get_pvi_entries`
builds only the transient `PVIEntry` scaffold and fresh sub-devices, never
touching the root device — so on error the dict is returned unchanged.
Name propagation (`device.set_name`, line 298) is an external collaborator
and not modelled. -/
def fill_pvi_entries_live (fetch : String → Nat → Except PviError PvaTable)
    (fuel : Nat) (rootChildren : List (String × DeviceObj)) (rootType : DeclType)
    (root_pv : String) (timeout : Nat) :
    Except PviError Unit × List (String × DeviceObj) :=
  let root_entry : PVIEntry :=
    .mk [] (some root_pv) (some (.block rootChildren)) (some rootType)
  match _get_pvi_entries fetch fuel root_entry timeout with
  | .error e => (.error e, rootChildren)
  | .ok entry => (.ok (), blockChildren (_set_device_attributes entry))

/-- `fill_pvi_entries` sim path (`sim=True`): `_sim_common_blocks(device)`
attaches `simBlocks (type-of-device)` to the root. -/
def fill_pvi_entries_sim (rootType : DeclType) : List (String × SimDevice) :=
  simBlocks rootType

/-! ### Unfolding lemmas for the discovery pipeline

Stated over variables so that concrete runs are obtained by instantiation
(never by kernel reduction of the well-founded recursions). -/

theorem verifyStep_none (e : PVIEntry) : verifyStep e none = .ok e := by
  simp [verifyStep]

theorem verifyStep_ok {e : PVIEntry} {t : DeclType}
    (h : _verify_common_blocks e t = .ok ()) :
    verifyStep e (some t) = .ok e := by
  simp [verifyStep, h]

theorem verifyStep_error {e : PVIEntry} {t : DeclType} {err : PviError}
    (h : _verify_common_blocks e t = .error err) :
    verifyStep e (some t) = .error err := by
  simp [verifyStep, h]

/-- The `let hints := ...` of `_get_pvi_entries` (lines 213-215). -/
def hintsOpt : Option DeclType → List (String × DeclType)
  | some t => get_type_hints_class t
  | none => []

theorem get_pvi_entries_zero (fetch : String → Nat → Except PviError PvaTable)
    (e : PVIEntry) (timeout : Nat) :
    _get_pvi_entries fetch 0 e timeout = .error .recursionLimit := rfl

theorem get_pvi_entries_no_pv (fetch : String → Nat → Except PviError PvaTable)
    (fuel : Nat) (subs : List (String × PVISub)) (device : Option DeviceObj)
    (cdt : Option DeclType) (timeout : Nat) :
    _get_pvi_entries fetch (fuel + 1) (.mk subs none device cdt) timeout
      = .error .notPviTable := by
  simp [_get_pvi_entries]

theorem get_pvi_entries_not_table (fetch : String → Nat → Except PviError PvaTable)
    (fuel : Nat) (subs : List (String × PVISub)) {pv : String}
    (device : Option DeviceObj) (cdt : Option DeclType) (timeout : Nat)
    (h1 : endsWithStr pv ":PVI" = false) :
    _get_pvi_entries fetch (fuel + 1) (.mk subs (some pv) device cdt) timeout
      = .error .notPviTable := by
  simp [_get_pvi_entries, h1]

theorem get_pvi_entries_fetch_error
    {fetch : String → Nat → Except PviError PvaTable}
    (fuel : Nat) (subs : List (String × PVISub)) {pv : String}
    (device : Option DeviceObj) (cdt : Option DeclType) {timeout : Nat}
    {err : PviError}
    (h1 : endsWithStr pv ":PVI" = true)
    (h2 : fetch pv timeout = .error err) :
    _get_pvi_entries fetch (fuel + 1) (.mk subs (some pv) device cdt) timeout
      = .error err := by
  simp [_get_pvi_entries, h1, h2]

theorem get_pvi_entries_loop_error
    {fetch : String → Nat → Except PviError PvaTable}
    {fuel : Nat} {subs : List (String × PVISub)} {pv : String}
    (device : Option DeviceObj) {cdt : Option DeclType} {timeout : Nat}
    {table : PvaTable} {err : PviError}
    (h1 : endsWithStr pv ":PVI" = true)
    (h2 : fetch pv timeout = .ok table)
    (h3 : pviLoop (fun se => _get_pvi_entries fetch fuel se DEFAULT_TIMEOUT)
        (hintsOpt cdt) subs table = .error err) :
    _get_pvi_entries fetch (fuel + 1) (.mk subs (some pv) device cdt) timeout
      = .error err := by
  cases cdt <;>
    simp only [_get_pvi_entries, h1, h2, hintsOpt] at h3 ⊢ <;>
    simp [h3]

theorem get_pvi_entries_step
    {fetch : String → Nat → Except PviError PvaTable}
    {fuel : Nat} {subs : List (String × PVISub)} {pv : String}
    (device : Option DeviceObj) {cdt : Option DeclType} {timeout : Nat}
    {table : PvaTable} {new_subs : List (String × PVISub)}
    (h1 : endsWithStr pv ":PVI" = true)
    (h2 : fetch pv timeout = .ok table)
    (h3 : pviLoop (fun se => _get_pvi_entries fetch fuel se DEFAULT_TIMEOUT)
        (hintsOpt cdt) subs table = .ok new_subs) :
    _get_pvi_entries fetch (fuel + 1) (.mk subs (some pv) device cdt) timeout
      = verifyStep (.mk new_subs (some pv) device cdt) cdt := by
  cases cdt <;>
    simp only [_get_pvi_entries, h1, h2, hintsOpt] at h3 ⊢ <;>
    simp [h3]

theorem fill_live_error
    {fetch : String → Nat → Except PviError PvaTable} {fuel : Nat}
    (rootChildren : List (String × DeviceObj)) {rootType : DeclType}
    {root_pv : String} {timeout : Nat} {err : PviError}
    (h : _get_pvi_entries fetch fuel
        (.mk [] (some root_pv) (some (.block rootChildren)) (some rootType))
        timeout = .error err) :
    fill_pvi_entries_live fetch fuel rootChildren rootType root_pv timeout
      = (.error err, rootChildren) := by
  simp [fill_pvi_entries_live, h]

theorem fill_live_ok
    {fetch : String → Nat → Except PviError PvaTable} {fuel : Nat}
    (rootChildren : List (String × DeviceObj)) {rootType : DeclType}
    {root_pv : String} {timeout : Nat} {entry : PVIEntry}
    (h : _get_pvi_entries fetch fuel
        (.mk [] (some root_pv) (some (.block rootChildren)) (some rootType))
        timeout = .ok entry) :
    fill_pvi_entries_live fetch fuel rootChildren rootType root_pv timeout
      = (.ok (), blockChildren (_set_device_attributes entry)) := by
  simp [fill_pvi_entries_live, h]

/-! ### Schema-equivalent tables (for the sim/discover shape comparison)

`ServesF fetch fuel tmo pv hints` says the oracle serves, at `pv` (fetched
with timeout `tmo`), a table that mirrors the declared hints exactly: one row
per declared plain attribute, rows `n1`/`n2` for a declared collection `n`
(the two indices the sim builder fabricates), leaf rows carrying any
supported access-mode dict, block rows pointing at nested tables that are
served in turn — nested fetches are related at `DEFAULT_TIMEOUT`, which is
the timeout the recursion actually uses.  `wfHints` are the schemas the
comparison covers: distinct, digit-free, newline-free attribute names (none
of the skipped bookkeeping names), each type an optional/collection wrapping
of a parameterized signal type or of a well-formed device type. -/

def wfName (n : String) : Bool :=
  decide (n ≠ "_name") && decide (n ≠ "parent") && noNl n.data &&
    (match n.data.getLast? with
     | some c => !isDigitChar c
     | none => false)

mutual
def wfHints : List (String × DeclType) → Bool
  | [] => true
  | (n, t) :: rest =>
    wfName n && wfAttr t && rest.all (fun p => decide (p.1 ≠ n)) && wfHints rest
termination_by l => (sizeOf l, 3)
decreasing_by
  · apply Prod.Lex.left
    simp only [List.cons.sizeOf_spec, Prod.mk.sizeOf_spec]
    omega
  · apply Prod.Lex.left
    simp only [List.cons.sizeOf_spec, Prod.mk.sizeOf_spec]
    omega

def wfAttr : DeclType → Bool
  | .optionalT u => wfInner u
  | u => wfInner u
termination_by t => (sizeOf t, 2)
decreasing_by
  · apply Prod.Lex.right'
    · simp
    · omega
  · apply Prod.Lex.right'
    · omega
    · omega

def wfInner : DeclType → Bool
  | .vectorT c => wfCore c
  | c => wfCore c
termination_by t => (sizeOf t, 1)
decreasing_by
  · apply Prod.Lex.right'
    · simp
    · omega
  · apply Prod.Lex.right'
    · omega
    · omega

def wfCore : DeclType → Bool
  | .signalT (some _) => true
  | .deviceT h => wfHints h
  | _ => false
termination_by t => (sizeOf t, 0)
decreasing_by
  apply Prod.Lex.left
  simp
end

/-- The union- and vector-stripping the resolver applies to a declared
type. -/
def stripOf (t : DeclType) : Bool × DeclType :=
  _strip_device_vector (_strip_union t)

/-- A leaf row's access-mode dict: one of the five supported shapes.  Rows
with a single pv must not look like a nested table reference. -/
def LeafRow (row : List (String × String)) : Prop :=
  (∃ a, (row = [("rw", a)] ∨ row = [("r", a)] ∨ row = [("w", a)] ∨ row = [("x", a)])
    ∧ endsWithStr a ":PVI" = false)
  ∨ (∃ a b, row = [("r", a), ("w", b)] ∨ row = [("w", b), ("r", a)])

mutual
def ServesF (fetch : String → Nat → Except PviError PvaTable) :
    Nat → Nat → String → List (String × DeclType) → Prop
  | 0, _, _, _ => False
  | fuel + 1, tmo, pv, hints =>
    endsWithStr pv ":PVI" = true ∧
      ∃ rowss : List PvaTable, fetch pv tmo = .ok rowss.flatten
        ∧ RowsF fetch fuel hints rowss
termination_by fuel tmo pv hints => (fuel, 0, 0)
decreasing_by
  apply Prod.Lex.left
  omega

def RowsF (fetch : String → Nat → Except PviError PvaTable) (fuel : Nat) :
    List (String × DeclType) → List PvaTable → Prop
  | [], [] => True
  | (n, t) :: rest, rows :: rowss =>
    AttrF fetch fuel n t rows ∧ RowsF fetch fuel rest rowss
  | _, _ => False
termination_by hints rowss => (fuel, 2, hints.length)
decreasing_by
  · apply Prod.Lex.right'
    · omega
    · apply Prod.Lex.left
      omega
  · apply Prod.Lex.right'
    · omega
    · apply Prod.Lex.right'
      · omega
      · simp

def AttrF (fetch : String → Nat → Except PviError PvaTable) (fuel : Nat)
    (n : String) (t : DeclType) (rows : PvaTable) : Prop :=
  match stripOf t with
  | (false, .signalT (some _)) => ∃ row, rows = [(n, row)] ∧ LeafRow row
  | (true, .signalT (some _)) =>
    ∃ row1 row2, rows = [(n ++ "1", row1), (n ++ "2", row2)]
      ∧ LeafRow row1 ∧ LeafRow row2
  | (false, .deviceT h) =>
    ∃ tag pv, rows = [(n, [(tag, pv)])] ∧ endsWithStr pv ":PVI" = true
      ∧ ServesF fetch fuel DEFAULT_TIMEOUT pv h
  | (true, .deviceT h) =>
    ∃ tag1 pv1 tag2 pv2,
      rows = [(n ++ "1", [(tag1, pv1)]), (n ++ "2", [(tag2, pv2)])]
      ∧ endsWithStr pv1 ":PVI" = true ∧ endsWithStr pv2 ":PVI" = true
      ∧ ServesF fetch fuel DEFAULT_TIMEOUT pv1 h
      ∧ ServesF fetch fuel DEFAULT_TIMEOUT pv2 h
  | _ => False
termination_by (fuel, 1, 0)
decreasing_by
  all_goals
    apply Prod.Lex.right'
    · omega
    · apply Prod.Lex.left
      omega
end

/-- Children shapes of a live entry's `sub_entries` after materialization. -/
def liveShapeOfSubs (subs : List (String × PVISub)) : List (String × Shape) :=
  (materializeSubs subs).map (fun p => (p.1, shapeOfDevice p.2))

/-- Children shapes of the sim builder's output for the same hints. -/
def simShapeOfHints (hints : List (String × DeclType)) : List (String × Shape) :=
  (simHints hints).map (fun p => (p.1, shapeOfSim p.2))

/-- A leaf sub-entry built by the loop: no children, no pvi pv, an epics
signal device, a parameterized signal type recorded. -/
def LeafEntry (e : PVIEntry) : Prop :=
  ∃ s dt, e = .mk [] none (some (.signal s)) (some (.signalT (some dt)))

/-- A nested-table sub-entry built by the loop and filled by the recursion:
its children verified against `h` and shape-equal to the sim builder's. -/
def BlockEntry (h : List (String × DeclType)) (e : PVIEntry) : Prop :=
  ∃ subs pv, e = .mk subs (some pv) (some (.block [])) (some (.deviceT h))
    ∧ _verify_common_blocks e (.deviceT h) = .ok ()
    ∧ liveShapeOfSubs subs = simShapeOfHints h
    ∧ subs.map (fun p => p.1) = h.map (fun p => p.1)

/-- What the loop stores for one declared attribute, by resolved shape. -/
def SubOk (t : DeclType) (sub : PVISub) : Prop :=
  match stripOf t with
  | (false, .signalT (some _)) => ∃ e, sub = .single e ∧ LeafEntry e
  | (true, .signalT (some _)) =>
    ∃ e1 e2, sub = .dict [(1, e1), (2, e2)] ∧ LeafEntry e1 ∧ LeafEntry e2
  | (false, .deviceT h) => ∃ e, sub = .single e ∧ BlockEntry h e
  | (true, .deviceT h) =>
    ∃ e1 e2, sub = .dict [(1, e1), (2, e2)] ∧ BlockEntry h e1 ∧ BlockEntry h e2
  | _ => False

/-! ### Dictionary, shape, and well-formedness helper lemmas -/

theorem dictGet_append {β : Type} (l1 l2 : List (String × β)) (k : String)
    (h : dictGet l1 k = none) : dictGet (l1 ++ l2) k = dictGet l2 k := by
  induction l1 with
  | nil => rfl
  | cons p rest ih =>
    obtain ⟨k', v⟩ := p
    rw [dictGet] at h
    rw [List.cons_append, dictGet]
    by_cases hk : k' = k
    · rw [if_pos hk] at h
      exact absurd h (by simp)
    · rw [if_neg hk] at h ⊢
      exact ih h

theorem dictSet_fresh {β : Type} (l : List (String × β)) (k : String) (v : β)
    (h : dictGet l k = none) : dictSet l k v = l ++ [(k, v)] := by
  induction l with
  | nil => rfl
  | cons p rest ih =>
    obtain ⟨k', v'⟩ := p
    rw [dictGet] at h
    rw [dictSet, List.cons_append]
    by_cases hk : k' = k
    · rw [if_pos hk] at h
      exact absurd h (by simp)
    · rw [if_neg hk] at h ⊢
      rw [ih h]

theorem dictSet_append_found {β : Type} (l : List (String × β)) (k : String) (v w : β)
    (h : dictGet l k = none) : dictSet (l ++ [(k, v)]) k w = l ++ [(k, w)] := by
  induction l with
  | nil => simp [dictSet]
  | cons p rest ih =>
    obtain ⟨k', v'⟩ := p
    rw [dictGet] at h
    rw [List.cons_append, dictSet, List.cons_append]
    by_cases hk : k' = k
    · rw [if_pos hk] at h
      exact absurd h (by simp)
    · rw [if_neg hk] at h ⊢
      rw [ih h]

theorem dictGet_single_ne {β : Type} (k m : String) (v : β) (h : k ≠ m) :
    dictGet [(k, v)] m = none := by
  rw [dictGet, if_neg h]
  rfl

theorem dictGet_append_single {β : Type} (l : List (String × β)) (k : String) (v : β)
    (h : dictGet l k = none) : dictGet (l ++ [(k, v)]) k = some v := by
  rw [dictGet_append l _ _ h, dictGet, if_pos rfl]

theorem foldl_dictSet_fresh {β : Type} :
    ∀ (l acc : List (String × β)),
      (∀ p ∈ l, dictGet acc p.1 = none) → (l.map (fun p => p.1)).Nodup →
      List.foldl (fun acc p => dictSet acc p.1 p.2) acc l = acc ++ l := by
  intro l
  induction l with
  | nil => intro acc _ _; simp
  | cons p rest ih =>
    intro acc hfresh hnodup
    rw [List.foldl_cons, dictSet_fresh acc p.1 p.2 (hfresh p (by simp))]
    rw [List.map_cons, List.nodup_cons] at hnodup
    have hfresh' : ∀ q ∈ rest, dictGet (acc ++ [(p.1, p.2)]) q.1 = none := by
      intro q hq
      rw [dictGet_append _ _ _ (hfresh q (List.mem_cons_of_mem _ hq))]
      refine dictGet_single_ne _ _ _ ?_
      intro hEq
      exact hnodup.1 (hEq ▸ List.mem_map_of_mem (fun p => p.1) hq)
    rw [ih (acc ++ [(p.1, p.2)]) hfresh' hnodup.2]
    simp

theorem materializeSubs_map_fst :
    ∀ subs : List (String × PVISub),
      (materializeSubs subs).map (fun p => p.1) = subs.map (fun p => p.1) := by
  intro subs
  induction subs with
  | nil => simp [materializeSubs]
  | cons p rest ih =>
    obtain ⟨n, s⟩ := p
    simp [materializeSubs, ih]

theorem shapeOfChildren_eq_map :
    ∀ l : List (String × DeviceObj),
      shapeOfChildren l = l.map (fun p => (p.1, shapeOfDevice p.2)) := by
  intro l
  induction l with
  | nil => rfl
  | cons p rest ih =>
    obtain ⟨n, d⟩ := p
    simp [shapeOfChildren, ih]

theorem shapeOfSimChildren_eq_map :
    ∀ l : List (String × SimDevice),
      shapeOfSimChildren l = l.map (fun p => (p.1, shapeOfSim p.2)) := by
  intro l
  induction l with
  | nil => rfl
  | cons p rest ih =>
    obtain ⟨n, d⟩ := p
    simp [shapeOfSimChildren, ih]

theorem wfName_parts {n : String} (h : wfName n = true) :
    n ≠ "_name" ∧ n ≠ "parent" ∧ noNl n.data = true
      ∧ ∃ c, n.data.getLast? = some c ∧ isDigitChar c = false := by
  rw [wfName] at h
  simp only [Bool.and_eq_true, decide_eq_true_eq] at h
  refine ⟨h.1.1.1, h.1.1.2, h.1.2, ?_⟩
  rcases hl : n.data.getLast? with _ | c
  · rw [hl] at h
    exact absurd h.2 (by simp)
  · rw [hl] at h
    refine ⟨c, rfl, ?_⟩
    have := h.2
    simp at this
    exact this

theorem simHints_eq_map :
    ∀ hints : List (String × DeclType),
      (∀ p ∈ hints, wfName p.1 = true) →
      simHints hints = hints.map (fun p => (p.1, simSub p.1 p.2)) := by
  intro hints
  induction hints with
  | nil => intro _; simp [simHints]
  | cons p rest ih =>
    intro hwf
    obtain ⟨n, t⟩ := p
    obtain ⟨h1, h2, _⟩ := wfName_parts (hwf (n, t) (by simp))
    rw [List.map_cons]
    rw [simHints, if_neg (by simp [h1, h2])]
    rw [ih (fun q hq => hwf q (List.mem_cons_of_mem _ hq))]

theorem verify_empty_subs (pvi_pv : Option String) (device : Option DeviceObj)
    (cdt : Option DeclType) (t : DeclType) :
    _verify_common_blocks (.mk [] pvi_pv device cdt) t = .ok () := by
  simp [_verify_common_blocks]

theorem verify_unfold_ok {subs : List (String × PVISub)}
    (pvi_pv : Option String) (device : Option DeviceObj) (cdt : Option DeclType)
    {t : DeclType} {hints : List (String × DeclType)}
    (hns : subs.isEmpty = false) (h : get_type_hints t = .ok hints) :
    _verify_common_blocks (.mk subs pvi_pv device cdt) t
      = verifyHints subs hints := by
  rw [_verify_common_blocks, if_neg (by simp [hns])]
  split
  · next e heq => rw [h] at heq; exact absurd heq (by simp)
  · next hs heq =>
    rw [h] at heq
    cases heq
    rfl

theorem verify_unfold_error {subs : List (String × PVISub)}
    (pvi_pv : Option String) (device : Option DeviceObj) (cdt : Option DeclType)
    {t : DeclType} {err : PviError}
    (hns : subs.isEmpty = false) (h : get_type_hints t = .error err) :
    _verify_common_blocks (.mk subs pvi_pv device cdt) t = .error err := by
  rw [_verify_common_blocks, if_neg (by simp [hns])]
  split
  · next e heq =>
    rw [h] at heq
    cases heq
    rfl
  · next hs heq => rw [h] at heq; exact absurd heq (by simp)

theorem verify_ok_nil_hints (e : PVIEntry) (t : DeclType)
    (h : get_type_hints t = .ok []) : _verify_common_blocks e t = .ok () := by
  obtain ⟨subs, pv, dev, cdt⟩ := e
  cases hs : subs.isEmpty with
  | true =>
    rw [_verify_common_blocks, if_pos (by simp [hs])]
  | false =>
    rw [verify_unfold_ok pv dev cdt hs h]
    simp [verifyHints]

theorem wfAttr_eq_core (t : DeclType) : wfAttr t = wfCore (stripOf t).2 := by
  cases t with
  | optionalT u =>
    cases u <;> simp [wfAttr, wfInner, wfCore, stripOf, _strip_union, _strip_device_vector]
  | vectorT c => simp [wfAttr, wfInner, wfCore, stripOf, _strip_union, _strip_device_vector]
  | signalT o => simp [wfAttr, wfInner, wfCore, stripOf, _strip_union, _strip_device_vector]
  | deviceT hh => simp [wfAttr, wfInner, wfCore, stripOf, _strip_union, _strip_device_vector]

/-! ### Strict schemas: well-formed and free of Optional-wrapped blocks

`_verify_common_blocks` recurses with the raw, unstripped declared hint
(lines 88-93), so a child that itself has children and whose declared type is
an `Optional[...]` alias sends that alias into `typing.get_type_hints`, which
raises `TypeError`.  `strictHints` are the `wfHints` whose device-typed
attributes are declared as bare device classes or `DeviceVector[...]` of them
(the latter survive because `DeviceVector[X]` is a `types.GenericAlias` that
`get_type_hints` answers with bookkeeping-only hints); `Optional` wrapping is
allowed only on endpoint attributes, whose stored entries never have
children, so the raw-hint recursion returns before calling
`get_type_hints`. -/

mutual
def strictHints : List (String × DeclType) → Bool
  | [] => true
  | (n, t) :: rest =>
    wfName n && strictAttr t && rest.all (fun p => decide (p.1 ≠ n)) &&
      strictHints rest
termination_by l => (sizeOf l, 1)
decreasing_by
  · apply Prod.Lex.left
    simp only [List.cons.sizeOf_spec, Prod.mk.sizeOf_spec]
    omega
  · apply Prod.Lex.left
    simp only [List.cons.sizeOf_spec, Prod.mk.sizeOf_spec]
    omega

def strictAttr : DeclType → Bool
  | .optionalT (.signalT (some _)) => true
  | .optionalT (.vectorT (.signalT (some _))) => true
  | .optionalT _ => false
  | .vectorT (.signalT (some _)) => true
  | .vectorT (.deviceT h) => strictHints h
  | .vectorT _ => false
  | .signalT (some _) => true
  | .signalT none => false
  | .deviceT h => strictHints h
termination_by t => (sizeOf t, 0)
decreasing_by
  · apply Prod.Lex.left
    simp
    omega
  · apply Prod.Lex.left
    simp
end

mutual
theorem strictHints_imp_wfHints (hs : List (String × DeclType))
    (h : strictHints hs = true) : wfHints hs = true := by
  match hs with
  | [] => simp [wfHints]
  | (n, t) :: rest =>
    rw [strictHints] at h
    simp only [Bool.and_eq_true] at h
    rw [wfHints]
    simp only [Bool.and_eq_true]
    exact ⟨⟨⟨h.1.1.1, strictAttr_imp_wfAttr t h.1.1.2⟩, h.1.2⟩,
      strictHints_imp_wfHints rest h.2⟩
termination_by (sizeOf hs, 1)
decreasing_by
  · apply Prod.Lex.left
    simp only [List.cons.sizeOf_spec, Prod.mk.sizeOf_spec]
    omega
  · apply Prod.Lex.left
    simp only [List.cons.sizeOf_spec, Prod.mk.sizeOf_spec]
    omega

theorem strictAttr_imp_wfAttr (t : DeclType) (h : strictAttr t = true) :
    wfAttr t = true := by
  match t with
  | .optionalT (.signalT (some d)) => simp [wfAttr, wfInner, wfCore]
  | .optionalT (.signalT none) => simp [strictAttr] at h
  | .optionalT (.vectorT (.signalT (some d))) => simp [wfAttr, wfInner, wfCore]
  | .optionalT (.vectorT (.signalT none)) => simp [strictAttr] at h
  | .optionalT (.vectorT (.vectorT u)) => simp [strictAttr] at h
  | .optionalT (.vectorT (.optionalT u)) => simp [strictAttr] at h
  | .optionalT (.vectorT (.deviceT hh)) => simp [strictAttr] at h
  | .optionalT (.optionalT u) => simp [strictAttr] at h
  | .optionalT (.deviceT hh) => simp [strictAttr] at h
  | .vectorT (.signalT (some d)) => simp [wfAttr, wfInner, wfCore]
  | .vectorT (.signalT none) => simp [strictAttr] at h
  | .vectorT (.vectorT u) => simp [strictAttr] at h
  | .vectorT (.optionalT u) => simp [strictAttr] at h
  | .vectorT (.deviceT hh) =>
    rw [strictAttr] at h
    have hw := strictHints_imp_wfHints hh h
    simp [wfAttr, wfInner, wfCore, hw]
  | .signalT (some d) => simp [wfAttr, wfInner, wfCore]
  | .signalT none => simp [strictAttr] at h
  | .deviceT hh =>
    rw [strictAttr] at h
    have hw := strictHints_imp_wfHints hh h
    simp [wfAttr, wfInner, wfCore, hw]
termination_by (sizeOf t, 0)
decreasing_by
  · apply Prod.Lex.left
    simp
    omega
  · apply Prod.Lex.left
    simp
end

theorem strictHints_parts {n : String} {t : DeclType}
    {rest : List (String × DeclType)}
    (h : strictHints ((n, t) :: rest) = true) :
    wfName n = true ∧ strictAttr t = true
      ∧ (∀ p ∈ rest, p.1 ≠ n) ∧ strictHints rest = true := by
  rw [strictHints] at h
  simp only [Bool.and_eq_true, List.all_eq_true, decide_eq_true_eq] at h
  exact ⟨h.1.1.1, h.1.1.2, h.1.2, h.2⟩

theorem strictAttr_block_bare {t : DeclType} {h2 : List (String × DeclType)}
    (hs : strictAttr t = true) (hst : stripOf t = (false, .deviceT h2)) :
    t = .deviceT h2 ∧ strictHints h2 = true := by
  cases t with
  | deviceT hh =>
    simp [stripOf, _strip_union, _strip_device_vector] at hst
    subst hst
    rw [strictAttr] at hs
    exact ⟨rfl, hs⟩
  | optionalT u =>
    cases u with
    | deviceT hh => simp [strictAttr] at hs
    | optionalT v => simp [strictAttr] at hs
    | vectorT v => simp [stripOf, _strip_union, _strip_device_vector] at hst
    | signalT o => simp [stripOf, _strip_union, _strip_device_vector] at hst
  | vectorT u => simp [stripOf, _strip_union, _strip_device_vector] at hst
  | signalT o => cases o <;> simp [stripOf, _strip_union, _strip_device_vector] at hst

theorem strictAttr_vec_block {t : DeclType} {h2 : List (String × DeclType)}
    (hs : strictAttr t = true) (hst : stripOf t = (true, .deviceT h2)) :
    t = .vectorT (.deviceT h2) ∧ strictHints h2 = true := by
  cases t with
  | deviceT hh => simp [stripOf, _strip_union, _strip_device_vector] at hst
  | optionalT u =>
    cases u with
    | deviceT hh => simp [stripOf, _strip_union, _strip_device_vector] at hst
    | optionalT v => simp [strictAttr] at hs
    | vectorT v =>
      simp [stripOf, _strip_union, _strip_device_vector] at hst
      subst hst
      simp [strictAttr] at hs
    | signalT o => simp [stripOf, _strip_union, _strip_device_vector] at hst
  | vectorT u =>
    simp [stripOf, _strip_union, _strip_device_vector] at hst
    subst hst
    rw [strictAttr] at hs
    exact ⟨rfl, hs⟩
  | signalT o => cases o <;> simp [stripOf, _strip_union, _strip_device_vector] at hst

theorem wfHints_parts {n : String} {t : DeclType} {rest : List (String × DeclType)}
    (h : wfHints ((n, t) :: rest) = true) :
    wfName n = true ∧ wfAttr t = true
      ∧ (∀ p ∈ rest, p.1 ≠ n) ∧ wfHints rest = true := by
  rw [wfHints] at h
  simp only [Bool.and_eq_true, List.all_eq_true, decide_eq_true_eq] at h
  exact ⟨h.1.1.1, h.1.1.2, h.1.2, h.2⟩

theorem wfHints_lookup :
    ∀ {hints : List (String × DeclType)}, wfHints hints = true →
      ∀ p ∈ hints, dictGet hints p.1 = some p.2 := by
  intro hints
  induction hints with
  | nil => intro _ p hp; exact absurd hp (by simp)
  | cons q rest ih =>
    intro hwf p hp
    obtain ⟨n, t⟩ := q
    obtain ⟨_, _, hne, hrest⟩ := wfHints_parts hwf
    rcases List.mem_cons.mp hp with hEq | hmem
    · subst hEq
      rw [dictGet, if_pos rfl]
    · rw [dictGet, if_neg ?_]
      · exact ih hrest p hmem
      · intro hEq
        exact hne p hmem (by rw [hEq])

theorem wfHints_names_nodup :
    ∀ {hints : List (String × DeclType)}, wfHints hints = true →
      (hints.map (fun p => p.1)).Nodup := by
  intro hints
  induction hints with
  | nil => intro _; simp
  | cons q rest ih =>
    intro hwf
    obtain ⟨n, t⟩ := q
    obtain ⟨_, _, hne, hrest⟩ := wfHints_parts hwf
    rw [List.map_cons, List.nodup_cons]
    refine ⟨?_, ih hrest⟩
    intro hmem
    obtain ⟨p, hp, hpe⟩ := List.mem_map.mp hmem
    exact hne p hp hpe

/-! ### The name parser on well-formed attribute names -/

theorem digitsSuffix_of_wfName {n : String} (h : wfName n = true) :
    digitsSuffix n.data = [] ∧ namePart n.data = n.data := by
  obtain ⟨_, _, _, c, hlast, hcd⟩ := wfName_parts h
  rw [List.getLast?_eq_head?_reverse] at hlast
  cases hrev : n.data.reverse with
  | nil => rw [hrev] at hlast; exact absurd hlast (by simp)
  | cons c' restr =>
    rw [hrev] at hlast
    have hcc : c' = c := by
      simpa using hlast
    subst hcc
    constructor
    · rw [digitsSuffix, hrev, List.takeWhile_cons, hcd]
      rfl
    · rw [namePart, hrev, List.dropWhile_cons, hcd]
      simp only [Bool.false_eq_true, if_false]
      rw [← hrev, List.reverse_reverse]

theorem strMk_data (s : String) : String.mk s.data = s := rfl

theorem strip_of_wfName {n : String} (h : wfName n = true) :
    _strip_number_from_string n = some (n, none) := by
  obtain ⟨_, _, hnl, _⟩ := wfName_parts h
  rw [strip_number_eq_split n hnl]
  obtain ⟨hd, hn⟩ := digitsSuffix_of_wfName h
  rw [splitTrailingDigits, hd, hn, strMk_data]
  rfl

theorem data_append (a b : String) : (a ++ b).data = a.data ++ b.data := rfl

theorem strip_of_wfName_digit {n : String} (h : wfName n = true) (c : Char)
    (hc : isDigitChar c = true) :
    _strip_number_from_string (n ++ String.mk [c])
      = some (n, some (digitsToNat [c])) := by
  obtain ⟨_, _, hnl, _⟩ := wfName_parts h
  have hcnl : c ≠ '\n' := by
    intro hEq
    rw [hEq] at hc
    exact absurd hc (by decide)
  have hnl2 : noNl (n ++ String.mk [c]).data = true := by
    rw [data_append, noNl, List.all_append]
    rw [noNl] at hnl
    rw [Bool.and_eq_true]
    exact ⟨hnl, by simp [hcnl]⟩
  rw [strip_number_eq_split _ hnl2]
  obtain ⟨hd, hn⟩ := digitsSuffix_of_wfName h
  have hrev : (n ++ String.mk [c]).data.reverse = c :: n.data.reverse := by
    rw [data_append]
    simp
  have htw : (n.data.reverse.takeWhile isDigitChar) = [] := by
    have h3 := hd
    rw [digitsSuffix] at h3
    exact List.reverse_eq_nil_iff.mp h3
  have hdw : (n.data.reverse.dropWhile isDigitChar) = n.data.reverse := by
    have h2 : n.data.reverse.takeWhile isDigitChar
          ++ n.data.reverse.dropWhile isDigitChar
        = n.data.reverse :=
      List.takeWhile_append_dropWhile isDigitChar n.data.reverse
    rw [htw] at h2
    simpa using h2
  have h1 : digitsSuffix (n ++ String.mk [c]).data = [c] := by
    rw [digitsSuffix, hrev, List.takeWhile_cons, hc]
    simp [htw]
  have h2 : namePart (n ++ String.mk [c]).data = n.data := by
    rw [namePart, hrev, List.dropWhile_cons, hc]
    simp only [if_true]
    rw [hdw, List.reverse_reverse]
  rw [splitTrailingDigits, h1, h2, strMk_data]
  simp

/-! ### Loop steps on schema-matching rows -/

theorem leafRow_not_pvi {row : List (String × String)} (h : LeafRow row) :
    ¬(row.length = 1
      ∧ endsWithStr ((Option.map (fun p => p.2) row.head?).getD "") ":PVI" = true) := by
  rcases h with ⟨a, hcase, hends⟩ | ⟨a, b, hcase⟩
  · rcases hcase with h1 | h1 | h1 | h1 <;> subst h1 <;> simp [hends]
  · rcases hcase with h1 | h1 <;> subst h1 <;> simp

theorem leafRow_builds {row : List (String × String)} (h : LeafRow row)
    (dt : Option Dtype) :
    ∃ s, buildSignalE (row.map (fun p => p.1)).toFinset dt (row.map (fun p => p.2))
      = .ok s := by
  rcases h with ⟨a, hcase, _⟩ | ⟨a, b, hcase⟩
  · rcases hcase with h1 | h1 | h1 | h1 <;> subst h1
    · exact ⟨_, rfl⟩
    · exact ⟨_, rfl⟩
    · exact ⟨_, rfl⟩
    · exact ⟨_, rfl⟩
  · rcases hcase with h1 | h1 <;> subst h1
    · exact ⟨_, rfl⟩
    · exact ⟨_, rfl⟩

theorem loop_step_leaf (recur : PVIEntry → Except PviError PVIEntry)
    (hints : List (String × DeclType)) (acc : List (String × PVISub))
    (rest : PvaTable) {n : String} {t : DeclType} {dt : Dtype}
    {row : List (String × String)}
    (hname : wfName n = true)
    (hget : dictGet hints n = some t)
    (hstrip : _strip_device_vector (_strip_union t) = (false, .signalT (some dt)))
    (hrow : LeafRow row)
    (hfresh : dictGet acc n = none) :
    ∃ e, pviLoop recur hints acc ((n, row) :: rest)
        = pviLoop recur hints (acc ++ [(n, PVISub.single e)]) rest
      ∧ LeafEntry e := by
  obtain ⟨s, hbuild⟩ := leafRow_builds hrow (some dt)
  have hstripn := strip_of_wfName hname
  have hset := dictSet_fresh acc n
    (PVISub.single (.mk [] none (some (.signal s)) (some (.signalT (some dt))))) hfresh
  refine ⟨.mk [] none (some (.signal s)) (some (.signalT (some dt))), ?_, s, dt, rfl⟩
  simp [pviLoop, hstripn, hget, hstrip, hbuild, hset, _parse_type,
    isSignalType, get_args_dtype, leafRow_not_pvi hrow]

theorem loop_step_leaf_vec (recur : PVIEntry → Except PviError PVIEntry)
    (hints : List (String × DeclType)) (acc : List (String × PVISub))
    (rest : PvaTable) {n : String} {t : DeclType} {dt : Dtype}
    {row1 row2 : List (String × String)}
    (hname : wfName n = true)
    (hget : dictGet hints n = some t)
    (hstrip : _strip_device_vector (_strip_union t) = (true, .signalT (some dt)))
    (hrow1 : LeafRow row1) (hrow2 : LeafRow row2)
    (hfresh : dictGet acc n = none) :
    ∃ e1 e2, pviLoop recur hints acc ((n ++ "1", row1) :: (n ++ "2", row2) :: rest)
        = pviLoop recur hints (acc ++ [(n, PVISub.dict [(1, e1), (2, e2)])]) rest
      ∧ LeafEntry e1 ∧ LeafEntry e2 := by
  obtain ⟨s1, hbuild1⟩ := leafRow_builds hrow1 (some dt)
  obtain ⟨s2, hbuild2⟩ := leafRow_builds hrow2 (some dt)
  have hstrip1 : _strip_number_from_string (n ++ "1") = some (n, some 1) :=
    strip_of_wfName_digit hname '1' (by decide)
  have hstrip2 : _strip_number_from_string (n ++ "2") = some (n, some 2) :=
    strip_of_wfName_digit hname '2' (by decide)
  refine ⟨.mk [] none (some (.signal s1)) (some (.signalT (some dt))),
    .mk [] none (some (.signal s2)) (some (.signalT (some dt))),
    ?_, ⟨s1, dt, rfl⟩, ⟨s2, dt, rfl⟩⟩
  have hset1 := dictSet_fresh acc n
    (PVISub.dict [(1, .mk [] none (some (.signal s1)) (some (.signalT (some dt))))]) hfresh
  have hget1 := dictGet_append_single acc n
    (PVISub.dict [(1, .mk [] none (some (.signal s1)) (some (.signalT (some dt))))]) hfresh
  have hset2 := dictSet_append_found acc n
    (PVISub.dict [(1, .mk [] none (some (.signal s1)) (some (.signalT (some dt))))])
    (PVISub.dict [(1, .mk [] none (some (.signal s1)) (some (.signalT (some dt)))),
      (2, .mk [] none (some (.signal s2)) (some (.signalT (some dt))))]) hfresh
  simp [pviLoop, hstrip1, hstrip2, hget, hstrip, hbuild1, hbuild2,
    leafRow_not_pvi hrow1, leafRow_not_pvi hrow2, hfresh, hset1, hget1, hset2,
    _parse_type, isSignalType, get_args_dtype, dictSetN]

theorem loop_step_block (recur : PVIEntry → Except PviError PVIEntry)
    (hints : List (String × DeclType)) (acc : List (String × PVISub))
    (rest : PvaTable) {n : String} {t : DeclType}
    {h' : List (String × DeclType)} {tag pv : String} {outE : PVIEntry}
    (hname : wfName n = true)
    (hget : dictGet hints n = some t)
    (hstrip : _strip_device_vector (_strip_union t) = (false, .deviceT h'))
    (hpv : endsWithStr pv ":PVI" = true)
    (hrec : recur (.mk [] (some pv) (some (.block [])) (some (.deviceT h'))) = .ok outE)
    (hfresh : dictGet acc n = none) :
    pviLoop recur hints acc ((n, [(tag, pv)]) :: rest)
      = pviLoop recur hints (acc ++ [(n, PVISub.single outE)]) rest := by
  have hstripn := strip_of_wfName hname
  have hset := dictSet_fresh acc n (PVISub.single outE) hfresh
  simp [pviLoop, hstripn, hget, hstrip, hpv, hrec, hset, _parse_type,
    isSignalType, get_args_dtype]

theorem loop_step_block_vec (recur : PVIEntry → Except PviError PVIEntry)
    (hints : List (String × DeclType)) (acc : List (String × PVISub))
    (rest : PvaTable) {n : String} {t : DeclType}
    {h' : List (String × DeclType)} {tag1 tag2 pv1 pv2 : String}
    {outE1 outE2 : PVIEntry}
    (hname : wfName n = true)
    (hget : dictGet hints n = some t)
    (hstrip : _strip_device_vector (_strip_union t) = (true, .deviceT h'))
    (hpv1 : endsWithStr pv1 ":PVI" = true)
    (hpv2 : endsWithStr pv2 ":PVI" = true)
    (hrec1 : recur (.mk [] (some pv1) (some (.block [])) (some (.deviceT h'))) = .ok outE1)
    (hrec2 : recur (.mk [] (some pv2) (some (.block [])) (some (.deviceT h'))) = .ok outE2)
    (hfresh : dictGet acc n = none) :
    pviLoop recur hints acc
        ((n ++ "1", [(tag1, pv1)]) :: (n ++ "2", [(tag2, pv2)]) :: rest)
      = pviLoop recur hints (acc ++ [(n, PVISub.dict [(1, outE1), (2, outE2)])]) rest := by
  have hstrip1 : _strip_number_from_string (n ++ "1") = some (n, some 1) :=
    strip_of_wfName_digit hname '1' (by decide)
  have hstrip2 : _strip_number_from_string (n ++ "2") = some (n, some 2) :=
    strip_of_wfName_digit hname '2' (by decide)
  have hset1 := dictSet_fresh acc n (PVISub.dict [(1, outE1)]) hfresh
  have hget1 := dictGet_append_single acc n (PVISub.dict [(1, outE1)]) hfresh
  have hset2 := dictSet_append_found acc n (PVISub.dict [(1, outE1)])
    (PVISub.dict [(1, outE1), (2, outE2)]) hfresh
  simp [pviLoop, hstrip1, hstrip2, hget, hstrip, hpv1, hpv2, hrec1, hrec2,
    hfresh, hset1, hget1, hset2, _parse_type, isSignalType, get_args_dtype, dictSetN]

/-! ### Unfolding the schema-equivalence relations -/

theorem servesF_zero_elim {fetch : String → Nat → Except PviError PvaTable}
    {tmo : Nat} {pv : String} {hints : List (String × DeclType)}
    (h : ServesF fetch 0 tmo pv hints) : False := by
  simp only [ServesF] at h

theorem servesF_succ (fetch : String → Nat → Except PviError PvaTable)
    (fuel tmo : Nat) (pv : String) (hints : List (String × DeclType)) :
    ServesF fetch (fuel + 1) tmo pv hints ↔
      (endsWithStr pv ":PVI" = true ∧
        ∃ rowss : List PvaTable, fetch pv tmo = .ok rowss.flatten
          ∧ RowsF fetch fuel hints rowss) := by
  simp only [ServesF]

theorem rowsF_nil (fetch : String → Nat → Except PviError PvaTable) (fuel : Nat) :
    RowsF fetch fuel [] [] := by
  simp only [RowsF]

theorem rowsF_cons_iff (fetch : String → Nat → Except PviError PvaTable)
    (fuel : Nat) (n : String) (t : DeclType) (tail : List (String × DeclType))
    (rows : PvaTable) (rowss : List PvaTable) :
    RowsF fetch fuel ((n, t) :: tail) (rows :: rowss) ↔
      AttrF fetch fuel n t rows ∧ RowsF fetch fuel tail rowss := by
  simp only [RowsF]

theorem rowsF_cons_elim {fetch : String → Nat → Except PviError PvaTable}
    {fuel : Nat} {n : String} {t : DeclType} {tail : List (String × DeclType)}
    {rowss : List PvaTable}
    (h : RowsF fetch fuel ((n, t) :: tail) rowss) :
    ∃ rows rowss', rowss = rows :: rowss'
      ∧ AttrF fetch fuel n t rows ∧ RowsF fetch fuel tail rowss' := by
  cases rowss with
  | nil => simp only [RowsF] at h
  | cons rows rowss' =>
    rw [rowsF_cons_iff] at h
    exact ⟨rows, rowss', rfl, h.1, h.2⟩

theorem attrF_elim {fetch : String → Nat → Except PviError PvaTable}
    {fuel : Nat} {n : String} {t : DeclType} {rows : PvaTable}
    (h : AttrF fetch fuel n t rows) :
    (∃ dt row, stripOf t = (false, .signalT (some dt))
      ∧ rows = [(n, row)] ∧ LeafRow row)
    ∨ (∃ dt row1 row2, stripOf t = (true, .signalT (some dt))
      ∧ rows = [(n ++ "1", row1), (n ++ "2", row2)]
      ∧ LeafRow row1 ∧ LeafRow row2)
    ∨ (∃ h2 tag pv, stripOf t = (false, .deviceT h2)
      ∧ rows = [(n, [(tag, pv)])] ∧ endsWithStr pv ":PVI" = true
      ∧ ServesF fetch fuel DEFAULT_TIMEOUT pv h2)
    ∨ (∃ h2 tag1 pv1 tag2 pv2, stripOf t = (true, .deviceT h2)
      ∧ rows = [(n ++ "1", [(tag1, pv1)]), (n ++ "2", [(tag2, pv2)])]
      ∧ endsWithStr pv1 ":PVI" = true ∧ endsWithStr pv2 ":PVI" = true
      ∧ ServesF fetch fuel DEFAULT_TIMEOUT pv1 h2
      ∧ ServesF fetch fuel DEFAULT_TIMEOUT pv2 h2) := by
  rw [AttrF] at h
  rcases hst : stripOf t with ⟨b, c⟩
  rw [hst] at h
  cases b
  · cases c with
    | optionalT u => simp at h
    | vectorT u => simp at h
    | signalT o =>
      cases o with
      | none => simp at h
      | some dt =>
        simp only [] at h
        obtain ⟨row, hr, hl⟩ := h
        exact Or.inl ⟨dt, row, rfl, hr, hl⟩
    | deviceT h2 =>
      simp only [] at h
      obtain ⟨tag, pv, hr, he, hs⟩ := h
      exact Or.inr (Or.inr (Or.inl ⟨h2, tag, pv, rfl, hr, he, hs⟩))
  · cases c with
    | optionalT u => simp at h
    | vectorT u => simp at h
    | signalT o =>
      cases o with
      | none => simp at h
      | some dt =>
        simp only [] at h
        obtain ⟨row1, row2, hr, hl1, hl2⟩ := h
        exact Or.inr (Or.inl ⟨dt, row1, row2, rfl, hr, hl1, hl2⟩)
    | deviceT h2 =>
      simp only [] at h
      obtain ⟨tag1, pv1, tag2, pv2, hr, he1, he2, hs1, hs2⟩ := h
      exact Or.inr (Or.inr (Or.inr ⟨h2, tag1, pv1, tag2, pv2, rfl, hr, he1, he2, hs1, hs2⟩))

theorem subOk_elim {t : DeclType} {sub : PVISub} (h : SubOk t sub) :
    (∃ dt e, stripOf t = (false, .signalT (some dt))
      ∧ sub = .single e ∧ LeafEntry e)
    ∨ (∃ dt e1 e2, stripOf t = (true, .signalT (some dt))
      ∧ sub = .dict [(1, e1), (2, e2)] ∧ LeafEntry e1 ∧ LeafEntry e2)
    ∨ (∃ h2 e, stripOf t = (false, .deviceT h2)
      ∧ sub = .single e ∧ BlockEntry h2 e)
    ∨ (∃ h2 e1 e2, stripOf t = (true, .deviceT h2)
      ∧ sub = .dict [(1, e1), (2, e2)] ∧ BlockEntry h2 e1 ∧ BlockEntry h2 e2) := by
  rw [SubOk] at h
  rcases hst : stripOf t with ⟨b, c⟩
  rw [hst] at h
  cases b
  · cases c with
    | optionalT u => simp at h
    | vectorT u => simp at h
    | signalT o =>
      cases o with
      | none => simp at h
      | some dt =>
        simp only [] at h
        obtain ⟨e, hr, hl⟩ := h
        exact Or.inl ⟨dt, e, rfl, hr, hl⟩
    | deviceT h2 =>
      simp only [] at h
      obtain ⟨e, hr, hb⟩ := h
      exact Or.inr (Or.inr (Or.inl ⟨h2, e, rfl, hr, hb⟩))
  · cases c with
    | optionalT u => simp at h
    | vectorT u => simp at h
    | signalT o =>
      cases o with
      | none => simp at h
      | some dt =>
        simp only [] at h
        obtain ⟨e1, e2, hr, hl1, hl2⟩ := h
        exact Or.inr (Or.inl ⟨dt, e1, e2, rfl, hr, hl1, hl2⟩)
    | deviceT h2 =>
      simp only [] at h
      obtain ⟨e1, e2, hr, hb1, hb2⟩ := h
      exact Or.inr (Or.inr (Or.inr ⟨h2, e1, e2, rfl, hr, hb1, hb2⟩))

/-- The discovery loop, run over a table that mirrors a well-formed schema
tail, appends exactly one slot per declared attribute, each matching `SubOk`;
`hrecur` is what the nesting recursion guarantees for served sub-tables. -/
theorem loop_builds (recur : PVIEntry → Except PviError PVIEntry)
    (fetch : String → Nat → Except PviError PvaTable) (fuel : Nat)
    (hints : List (String × DeclType))
    (hrecur : ∀ pv h2, strictHints h2 = true →
      ServesF fetch fuel DEFAULT_TIMEOUT pv h2 →
      ∃ e, recur (.mk [] (some pv) (some (.block [])) (some (.deviceT h2))) = .ok e
        ∧ BlockEntry h2 e) :
    ∀ (tail : List (String × DeclType)) (rowss : List PvaTable)
      (acc : List (String × PVISub)),
      strictHints tail = true →
      (∀ p ∈ tail, dictGet hints p.1 = some p.2) →
      (∀ p ∈ tail, dictGet acc p.1 = none) →
      RowsF fetch fuel tail rowss →
      ∃ built, pviLoop recur hints acc rowss.flatten = .ok (acc ++ built)
        ∧ List.Forall₂ (fun p q => q.1 = p.1 ∧ SubOk p.2 q.2) tail built := by
  intro tail
  induction tail with
  | nil =>
    intro rowss acc _ _ _ hrows
    cases rowss with
    | nil =>
      refine ⟨[], ?_, List.Forall₂.nil⟩
      simp [pviLoop]
    | cons rows rowss' => simp only [RowsF] at hrows
  | cons p tail' ih =>
    intro rowss acc hwf hlookup hfresh hrows
    obtain ⟨n, t⟩ := p
    obtain ⟨hname, hattr, hne, hwf'⟩ := strictHints_parts hwf
    obtain ⟨rows, rowss', rfl, hA, hrows'⟩ := rowsF_cons_elim hrows
    have hget : dictGet hints n = some t := hlookup (n, t) (by simp)
    have hfreshn : dictGet acc n = none := hfresh (n, t) (by simp)
    have hlookup' : ∀ q ∈ tail', dictGet hints q.1 = some q.2 :=
      fun q hq => hlookup q (List.mem_cons_of_mem _ hq)
    rcases attrF_elim hA with
      ⟨dt, row, hst, rfl, hrow⟩ |
      ⟨dt, row1, row2, hst, rfl, hrow1, hrow2⟩ |
      ⟨h2, tag, pv, hst, rfl, hpv, hserv⟩ |
      ⟨h2, tag1, pv1, tag2, pv2, hst, rfl, hpv1, hpv2, hserv1, hserv2⟩
    · -- plain leaf
      obtain ⟨e, hstep, hle⟩ :=
        loop_step_leaf recur hints acc rowss'.flatten hname hget hst hrow hfreshn
      have hfresh' : ∀ q ∈ tail', dictGet (acc ++ [(n, PVISub.single e)]) q.1 = none := by
        intro q hq
        rw [dictGet_append _ _ _ (hfresh q (List.mem_cons_of_mem _ hq))]
        exact dictGet_single_ne _ _ _ (fun hEq => hne q hq hEq.symm)
      obtain ⟨built', hloop', hf2'⟩ :=
        ih rowss' (acc ++ [(n, PVISub.single e)]) hwf' hlookup' hfresh' hrows'
      refine ⟨(n, PVISub.single e) :: built', ?_, ?_⟩
      · simp only [List.flatten_cons, List.singleton_append]
        rw [hstep, hloop']
        simp
      · refine List.Forall₂.cons ⟨rfl, ?_⟩ hf2'
        simp only [SubOk, hst]
        exact ⟨e, rfl, hle⟩
    · -- leaf collection
      obtain ⟨e1, e2, hstep, hle1, hle2⟩ :=
        loop_step_leaf_vec recur hints acc rowss'.flatten hname hget hst
          hrow1 hrow2 hfreshn
      have hfresh' : ∀ q ∈ tail',
          dictGet (acc ++ [(n, PVISub.dict [(1, e1), (2, e2)])]) q.1 = none := by
        intro q hq
        rw [dictGet_append _ _ _ (hfresh q (List.mem_cons_of_mem _ hq))]
        exact dictGet_single_ne _ _ _ (fun hEq => hne q hq hEq.symm)
      obtain ⟨built', hloop', hf2'⟩ :=
        ih rowss' (acc ++ [(n, PVISub.dict [(1, e1), (2, e2)])]) hwf' hlookup'
          hfresh' hrows'
      refine ⟨(n, PVISub.dict [(1, e1), (2, e2)]) :: built', ?_, ?_⟩
      · simp only [List.flatten_cons, List.cons_append, List.nil_append]
        rw [hstep, hloop']
        simp
      · refine List.Forall₂.cons ⟨rfl, ?_⟩ hf2'
        simp only [SubOk, hst]
        exact ⟨e1, e2, rfl, hle1, hle2⟩
    · -- plain nested table
      obtain ⟨_, hsh2⟩ := strictAttr_block_bare hattr hst
      obtain ⟨e, hrec, hbe⟩ := hrecur pv h2 hsh2 hserv
      have hstep :=
        @loop_step_block recur hints acc rowss'.flatten n t h2 tag pv e
          hname hget hst hpv hrec hfreshn
      have hfresh' : ∀ q ∈ tail', dictGet (acc ++ [(n, PVISub.single e)]) q.1 = none := by
        intro q hq
        rw [dictGet_append _ _ _ (hfresh q (List.mem_cons_of_mem _ hq))]
        exact dictGet_single_ne _ _ _ (fun hEq => hne q hq hEq.symm)
      obtain ⟨built', hloop', hf2'⟩ :=
        ih rowss' (acc ++ [(n, PVISub.single e)]) hwf' hlookup' hfresh' hrows'
      refine ⟨(n, PVISub.single e) :: built', ?_, ?_⟩
      · simp only [List.flatten_cons, List.singleton_append]
        rw [hstep, hloop']
        simp
      · refine List.Forall₂.cons ⟨rfl, ?_⟩ hf2'
        simp only [SubOk, hst]
        exact ⟨e, rfl, hbe⟩
    · -- nested-table collection
      obtain ⟨_, hsh2⟩ := strictAttr_vec_block hattr hst
      obtain ⟨e1, hrec1, hbe1⟩ := hrecur pv1 h2 hsh2 hserv1
      obtain ⟨e2, hrec2, hbe2⟩ := hrecur pv2 h2 hsh2 hserv2
      have hstep :=
        @loop_step_block_vec recur hints acc rowss'.flatten n t h2 tag1 tag2
          pv1 pv2 e1 e2 hname hget hst hpv1 hpv2 hrec1 hrec2 hfreshn
      have hfresh' : ∀ q ∈ tail',
          dictGet (acc ++ [(n, PVISub.dict [(1, e1), (2, e2)])]) q.1 = none := by
        intro q hq
        rw [dictGet_append _ _ _ (hfresh q (List.mem_cons_of_mem _ hq))]
        exact dictGet_single_ne _ _ _ (fun hEq => hne q hq hEq.symm)
      obtain ⟨built', hloop', hf2'⟩ :=
        ih rowss' (acc ++ [(n, PVISub.dict [(1, e1), (2, e2)])]) hwf' hlookup'
          hfresh' hrows'
      refine ⟨(n, PVISub.dict [(1, e1), (2, e2)]) :: built', ?_, ?_⟩
      · simp only [List.flatten_cons, List.cons_append, List.nil_append]
        rw [hstep, hloop']
        simp
      · refine List.Forall₂.cons ⟨rfl, ?_⟩ hf2'
        simp only [SubOk, hst]
        exact ⟨e1, e2, rfl, hbe1, hbe2⟩

theorem forall2_names :
    ∀ {hints : List (String × DeclType)} {built : List (String × PVISub)},
      List.Forall₂ (fun p q => q.1 = p.1 ∧ SubOk p.2 q.2) hints built →
      built.map (fun p => p.1) = hints.map (fun p => p.1) := by
  intro hints built hf2
  induction hf2 with
  | nil => rfl
  | cons hpq _ ih => simp [hpq.1, ih]

theorem forall2_lookup :
    ∀ {hints : List (String × DeclType)} {built : List (String × PVISub)},
      wfHints hints = true →
      List.Forall₂ (fun p q => q.1 = p.1 ∧ SubOk p.2 q.2) hints built →
      ∀ p ∈ hints, ∃ sub, dictGet built p.1 = some sub ∧ SubOk p.2 sub := by
  intro hints built hwf hf2
  revert hwf
  induction hf2 with
  | nil => intro _ p hp; exact absurd hp (by simp)
  | @cons p q l1 l2 hpq hf2' ih =>
    intro hwf r hr
    obtain ⟨n, t⟩ := p
    obtain ⟨m, s⟩ := q
    obtain ⟨hm, hS⟩ := hpq
    simp only [] at hm
    subst hm
    obtain ⟨_, _, hne, hwf'⟩ := wfHints_parts hwf
    rcases List.mem_cons.mp hr with rfl | hmem
    · exact ⟨s, by simp [dictGet], hS⟩
    · obtain ⟨sub, hget, hS'⟩ := ih hwf' r hmem
      refine ⟨sub, ?_, hS'⟩
      rw [dictGet, if_neg (fun hEq => hne r hmem hEq.symm)]
      exact hget

theorem verifyHints_of_lookup :
    ∀ (hints : List (String × DeclType)) (full : List (String × PVISub)),
      strictHints hints = true →
      (∀ p ∈ hints, ∃ sub, dictGet full p.1 = some sub ∧ SubOk p.2 sub) →
      verifyHints full hints = .ok () := by
  intro hints
  induction hints with
  | nil => intro full _ _; simp [verifyHints]
  | cons p rest ih =>
    intro full hwf hlook
    obtain ⟨n, t⟩ := p
    obtain ⟨hname, hsattr, _, hwf'⟩ := strictHints_parts hwf
    obtain ⟨h1, h2, _⟩ := wfName_parts hname
    obtain ⟨sub, hget, hS⟩ := hlook (n, t) (by simp)
    have ihr := ih full hwf' (fun q hq => hlook q (List.mem_cons_of_mem _ hq))
    have hv : ∀ e', sub = PVISub.single e' →
        _verify_common_blocks e' t = .ok () := by
      intro e' hsub
      subst hsub
      rcases subOk_elim hS with
        ⟨dt, e, hst, heq, s0, dt0, rfl⟩ |
        ⟨dt, e1, e2, hst, heq, _, _⟩ |
        ⟨hh, e, hst, heq, hbe⟩ |
        ⟨hh, e1, e2, hst, heq, _, _⟩
      · cases heq
        exact verify_empty_subs _ _ _ _
      · exact absurd heq (by simp)
      · cases heq
        obtain ⟨subs0, pv0, rfl, hver, _, _⟩ := hbe
        obtain ⟨teq, _⟩ := strictAttr_block_bare hsattr hst
        subst teq
        exact hver
      · exact absurd heq (by simp)
    have hvv : ∀ m, sub = PVISub.dict m → verifyVec m t = .ok () := by
      intro m hsub
      subst hsub
      rcases subOk_elim hS with
        ⟨dt, e, hst, heq, _⟩ |
        ⟨dt, e1, e2, hst, heq, hle1, hle2⟩ |
        ⟨hh, e, hst, heq, _⟩ |
        ⟨hh, e1, e2, hst, heq, hbe1, hbe2⟩
      · exact absurd heq (by simp)
      · cases heq
        obtain ⟨s1, dt1, rfl⟩ := hle1
        obtain ⟨s2, dt2, rfl⟩ := hle2
        simp [verifyVec, verify_empty_subs]
      · exact absurd heq (by simp)
      · cases heq
        obtain ⟨teq, _⟩ := strictAttr_vec_block hsattr hst
        subst teq
        have hv1 : _verify_common_blocks e1 (.vectorT (.deviceT hh)) = .ok () :=
          verify_ok_nil_hints _ _ rfl
        have hv2 : _verify_common_blocks e2 (.vectorT (.deviceT hh)) = .ok () :=
          verify_ok_nil_hints _ _ rfl
        simp [verifyVec, hv1, hv2]
    simp only [verifyHints]
    rw [if_neg (by simp [h1, h2])]
    rw [if_neg (by simp [hget])]
    split
    · next heq => rw [hget] at heq; exact absurd heq (by simp)
    · next m heq =>
      rw [hget] at heq
      cases heq
      rw [hvv _ rfl]
      exact ihr
    · next e' heq =>
      rw [hget] at heq
      cases heq
      rw [hv _ rfl]
      exact ihr

theorem verify_entry_of_forall2 {hints : List (String × DeclType)}
    {built : List (String × PVISub)} (pvi_pv : Option String)
    (device : Option DeviceObj) (cdt : Option DeclType)
    (hstrict : strictHints hints = true)
    (hf2 : List.Forall₂ (fun p q => q.1 = p.1 ∧ SubOk p.2 q.2) hints built) :
    _verify_common_blocks (.mk built pvi_pv device cdt) (.deviceT hints)
      = .ok () := by
  cases hbe : built.isEmpty with
  | true => rw [_verify_common_blocks, if_pos (by simp [hbe])]
  | false =>
    rw [verify_unfold_ok pvi_pv device cdt hbe
      (rfl : get_type_hints (.deviceT hints) = .ok hints)]
    exact verifyHints_of_lookup hints built hstrict
      (forall2_lookup (strictHints_imp_wfHints _ hstrict) hf2)

/-- Materializing one stored slot yields the same shape the sim builder gives
the same declared attribute. -/
theorem shape_single (n : String) {t : DeclType} {sub : PVISub}
    (hattr : wfAttr t = true) (hS : SubOk t sub) :
    shapeOfDevice (materializeSub sub) = shapeOfSim (simSub n t) := by
  rcases subOk_elim hS with
    ⟨dt, e, hst, rfl, s0, dt0, rfl⟩ |
    ⟨dt, e1, e2, hst, rfl, hle1, hle2⟩ |
    ⟨h2, e, hst, rfl, hbe⟩ |
    ⟨h2, e1, e2, hst, rfl, hbe1, hbe2⟩
  · have hsplit : _strip_device_vector (_strip_union t) = (false, .signalT (some dt)) := hst
    simp [materializeSub, shapeOfDevice, simSub, hsplit, isSignalType, shapeOfSim]
  · obtain ⟨s1, dt1, rfl⟩ := hle1
    obtain ⟨s2, dt2, rfl⟩ := hle2
    have hsplit : _strip_device_vector (_strip_union t) = (true, .signalT (some dt)) := hst
    simp [materializeSub, materializeVec, shapeOfDevice, shapeOfEntries, simSub,
      hsplit, isSignalType, shapeOfSim, shapeOfSimEntries]
  · obtain ⟨subs0, pv0, rfl, _, hshape, hnames⟩ := hbe
    have hsplit : _strip_device_vector (_strip_union t) = (false, .deviceT h2) := hst
    have hwfh2 : wfHints h2 = true := by
      have hcore := wfAttr_eq_core t
      rw [hst] at hcore
      rw [hcore] at hattr
      simpa [wfCore] using hattr
    have hnd : ((materializeSubs subs0).map (fun p => p.1)).Nodup := by
      rw [materializeSubs_map_fst, hnames]
      exact wfHints_names_nodup hwfh2
    have hfold := foldl_dictSet_fresh (materializeSubs subs0) [] (fun p _ => rfl) hnd
    have hsh : (materializeSubs subs0).map (fun p => (p.1, shapeOfDevice p.2))
        = (simHints h2).map (fun p => (p.1, shapeOfSim p.2)) := hshape
    simp [materializeSub, _set_device_attributes, setAttrs, hfold, shapeOfDevice,
      shapeOfChildren_eq_map, simSub, hsplit, isSignalType, simBlocks, shapeOfSim,
      shapeOfSimChildren_eq_map, hsh]
  · obtain ⟨subs1, pv1, rfl, _, hshape1, hnames1⟩ := hbe1
    obtain ⟨subs2, pv2, rfl, _, hshape2, hnames2⟩ := hbe2
    have hsplit : _strip_device_vector (_strip_union t) = (true, .deviceT h2) := hst
    have hwfh2 : wfHints h2 = true := by
      have hcore := wfAttr_eq_core t
      rw [hst] at hcore
      rw [hcore] at hattr
      simpa [wfCore] using hattr
    have hnd1 : ((materializeSubs subs1).map (fun p => p.1)).Nodup := by
      rw [materializeSubs_map_fst, hnames1]
      exact wfHints_names_nodup hwfh2
    have hnd2 : ((materializeSubs subs2).map (fun p => p.1)).Nodup := by
      rw [materializeSubs_map_fst, hnames2]
      exact wfHints_names_nodup hwfh2
    have hfold1 := foldl_dictSet_fresh (materializeSubs subs1) [] (fun p _ => rfl) hnd1
    have hfold2 := foldl_dictSet_fresh (materializeSubs subs2) [] (fun p _ => rfl) hnd2
    have hsh1 : (materializeSubs subs1).map (fun p => (p.1, shapeOfDevice p.2))
        = (simHints h2).map (fun p => (p.1, shapeOfSim p.2)) := hshape1
    have hsh2 : (materializeSubs subs2).map (fun p => (p.1, shapeOfDevice p.2))
        = (simHints h2).map (fun p => (p.1, shapeOfSim p.2)) := hshape2
    simp [materializeSub, materializeVec, _set_device_attributes, setAttrs,
      hfold1, hfold2, shapeOfDevice, shapeOfEntries, shapeOfChildren_eq_map,
      simSub, hsplit, isSignalType, simBlocks, shapeOfSim, shapeOfSimEntries,
      shapeOfSimChildren_eq_map, hsh1, hsh2]

/-- The slots the loop builds materialize to the same child shapes the sim
builder attaches for the same schema. -/
theorem shape_of_forall2 :
    ∀ {hints : List (String × DeclType)} {built : List (String × PVISub)},
      wfHints hints = true →
      List.Forall₂ (fun p q => q.1 = p.1 ∧ SubOk p.2 q.2) hints built →
      liveShapeOfSubs built = simShapeOfHints hints := by
  intro hints built hwf hf2
  revert hwf
  induction hf2 with
  | nil =>
    intro _
    simp [liveShapeOfSubs, simShapeOfHints, materializeSubs, simHints]
  | @cons p q l1 l2 hpq hf2' ih =>
    intro hwf
    obtain ⟨n, t⟩ := p
    obtain ⟨m, s⟩ := q
    obtain ⟨hm, hS⟩ := hpq
    simp only [] at hm
    subst hm
    obtain ⟨hname, hattr, _, hwf'⟩ := wfHints_parts hwf
    obtain ⟨h1, h2, _⟩ := wfName_parts hname
    simp only [liveShapeOfSubs, simShapeOfHints] at ih ⊢
    simp only [materializeSubs, simHints, List.map_cons]
    rw [if_neg (by simp [h1, h2])]
    rw [List.map_cons, shape_single m hattr hS, ih hwf']

/-- Discovery over any oracle serving a table tree that mirrors a well-formed
schema succeeds, verifies, and reproduces the sim builder's child names and
shapes, at every nesting level. -/
theorem discovery_matches :
    ∀ (fuel : Nat) (fetch : String → Nat → Except PviError PvaTable)
      (tmo : Nat) (pv : String) (hints : List (String × DeclType)),
      strictHints hints = true →
      ServesF fetch fuel tmo pv hints →
      ∀ device : Option DeviceObj,
        ∃ subs',
          _get_pvi_entries fetch fuel
              (.mk [] (some pv) device (some (.deviceT hints))) tmo
            = .ok (.mk subs' (some pv) device (some (.deviceT hints)))
          ∧ _verify_common_blocks (.mk subs' (some pv) device (some (.deviceT hints)))
              (.deviceT hints) = .ok ()
          ∧ liveShapeOfSubs subs' = simShapeOfHints hints
          ∧ subs'.map (fun p => p.1) = hints.map (fun p => p.1) := by
  intro fuel
  induction fuel with
  | zero =>
    intro fetch tmo pv hints _ hserve
    exact absurd hserve (fun h => servesF_zero_elim h)
  | succ fuel ih =>
    intro fetch tmo pv hints hstrict hserve device
    have hwf := strictHints_imp_wfHints hints hstrict
    rw [servesF_succ] at hserve
    obtain ⟨hpv, rowss, hfetch, hrows⟩ := hserve
    have hrecur : ∀ pv2 h2, strictHints h2 = true →
        ServesF fetch fuel DEFAULT_TIMEOUT pv2 h2 →
        ∃ e, _get_pvi_entries fetch fuel
            (.mk [] (some pv2) (some (.block [])) (some (.deviceT h2)))
            DEFAULT_TIMEOUT = .ok e ∧ BlockEntry h2 e := by
      intro pv2 h2 hwf2 hs2
      obtain ⟨subs2, hok2, hver2, hsh2, hnm2⟩ :=
        ih fetch DEFAULT_TIMEOUT pv2 h2 hwf2 hs2 (some (.block []))
      exact ⟨_, hok2, subs2, pv2, rfl, hver2, hsh2, hnm2⟩
    obtain ⟨built, hloop, hf2⟩ :=
      loop_builds (fun se => _get_pvi_entries fetch fuel se DEFAULT_TIMEOUT)
        fetch fuel hints hrecur hints rowss [] hstrict
        (fun p hp => wfHints_lookup hwf p hp) (fun p _ => rfl) hrows
    have hloop2 : pviLoop (fun se => _get_pvi_entries fetch fuel se DEFAULT_TIMEOUT)
        (hintsOpt (some (.deviceT hints))) [] rowss.flatten = .ok built := by
      simpa [hintsOpt, get_type_hints_class] using hloop
    have hstep := get_pvi_entries_step device hpv hfetch hloop2
    have hver := verify_entry_of_forall2 (some pv) device (some (.deviceT hints))
      hstrict hf2
    refine ⟨built, ?_, hver, shape_of_forall2 hwf hf2, forall2_names hf2⟩
    rw [hstep]
    exact verifyStep_ok hver

/-! ### Concrete discovery scenarios used by the claims -/

/-- The spec's example table:
`{"x": {"r":"PV:X","w":"PV:X"}, "y1": {"rw":"PV:Y1"}, "y2": {"rw":"PV:Y2"}}`. -/
def c6_table : PvaTable :=
  [("x", [("r", "PV:X"), ("w", "PV:X")]),
   ("y1", [("rw", "PV:Y1")]),
   ("y2", [("rw", "PV:Y2")])]

/-- An oracle serving `c6_table` at the root pv. -/
def c6_fetch : String → Nat → Except PviError PvaTable := fun pv _ =>
  if pv = "ROOT:PVI" then .ok c6_table else .error .timeoutError

/-- The read/write signal built for a single-address `rw` entry (and for the
dual-address `x` entry, whose two addresses coincide in the example). -/
def c6_sig (pv : String) : DeviceObj :=
  .signal (.rw none ("pva://" ++ pv) ("pva://" ++ pv))

def c6_leaf (pv : String) : PVIEntry :=
  .mk [] none (some (c6_sig pv)) (some (.signalT none))

/-- `sub_entries` after the loop: three separate leaf slots — `y1` and `y2`
are not aggregated (`_parse_type` tier 3 never marks a bare leaf as a device
vector). -/
def c6_subs : List (String × PVISub) :=
  [("x", .single (c6_leaf "PV:X")),
   ("y1", .single (c6_leaf "PV:Y1")),
   ("y2", .single (c6_leaf "PV:Y2"))]

def c6_entry : PVIEntry :=
  .mk c6_subs (some "ROOT:PVI") (some (.block [])) (some (.deviceT []))

theorem c6_loop (recur : PVIEntry → Except PviError PVIEntry) :
    pviLoop recur [] [] c6_table = .ok c6_subs := by
  have s1 : _strip_number_from_string "x" = some ("x", none) := rfl
  have s2 : _strip_number_from_string "y1" = some ("y", some 1) := rfl
  have s3 : _strip_number_from_string "y2" = some ("y", some 2) := rfl
  have e1 : endsWithStr "PV:X" ":PVI" = false := rfl
  have e2 : endsWithStr "PV:Y1" ":PVI" = false := rfl
  have e3 : endsWithStr "PV:Y2" ":PVI" = false := rfl
  have b1 : buildSignalE ({"r", "w"} : Finset String) none ["PV:X", "PV:X"]
      = .ok (.rw none "pva://PV:X" "pva://PV:X") := rfl
  have b2 : buildSignalE ({"rw"} : Finset String) none ["PV:Y1"]
      = .ok (.rw none "pva://PV:Y1" "pva://PV:Y1") := rfl
  have b3 : buildSignalE ({"rw"} : Finset String) none ["PV:Y2"]
      = .ok (.rw none "pva://PV:Y2" "pva://PV:Y2") := rfl
  simp [pviLoop, c6_table, s1, s2, s3, e1, e2, e3, b1, b2, b3, dictGet, dictSet,
    _parse_type, _strip_union, _strip_device_vector, isSignalType, get_args_dtype,
    c6_subs, c6_leaf, c6_sig]

theorem c6_verify_ok : _verify_common_blocks c6_entry (.deviceT []) = .ok () := by
  simp [c6_entry, _verify_common_blocks, verifyHints, get_type_hints, c6_subs]

theorem c6_disc : _get_pvi_entries c6_fetch 2
    (.mk [] (some "ROOT:PVI") (some (.block [])) (some (.deviceT []))) 10
    = .ok c6_entry := by
  have h1 : endsWithStr "ROOT:PVI" ":PVI" = true := rfl
  have h2 : c6_fetch "ROOT:PVI" 10 = .ok c6_table := rfl
  have h3 : pviLoop (fun se => _get_pvi_entries c6_fetch 1 se DEFAULT_TIMEOUT)
      (hintsOpt (some (.deviceT []))) [] c6_table = .ok c6_subs := c6_loop _
  exact (get_pvi_entries_step (some (.block [])) h1 h2 h3).trans
    (verifyStep_ok c6_verify_ok)

theorem c6_mat : _set_device_attributes c6_entry
    = .block [("x", c6_sig "PV:X"), ("y1", c6_sig "PV:Y1"), ("y2", c6_sig "PV:Y2")] := by
  simp [c6_entry, _set_device_attributes, materializeSubs, materializeSub, setAttrs,
    dictSet, c6_subs, c6_leaf]

theorem c6_eval : fill_pvi_entries_live c6_fetch 2 [] (.deviceT []) "ROOT:PVI" 10
    = (.ok (), [("x", c6_sig "PV:X"), ("y1", c6_sig "PV:Y1"), ("y2", c6_sig "PV:Y2")]) := by
  rw [fill_live_ok [] c6_disc, c6_mat]
  rfl

/-- Root table for the nested-table scenarios: one sub-table child `sub`
behind `SUB:PVI`. -/
def nested_root_table : PvaTable := [("sub", [("d", "SUB:PVI")])]

/-- An oracle whose nested table fetch times out (the root fetch succeeds). -/
def c2_fetch : String → Nat → Except PviError PvaTable := fun pv _ =>
  if pv = "ROOT:PVI" then .ok nested_root_table else .error .timeoutError

theorem c2_inner_error :
    _get_pvi_entries c2_fetch 1
      (.mk [] (some "SUB:PVI") (some (.block [])) (some (.deviceT []))) DEFAULT_TIMEOUT
      = .error .timeoutError := by
  have h1 : endsWithStr "SUB:PVI" ":PVI" = true := rfl
  have h2 : c2_fetch "SUB:PVI" DEFAULT_TIMEOUT = .error .timeoutError := rfl
  exact get_pvi_entries_fetch_error 0 [] (some (.block [])) (some (.deviceT [])) h1 h2

theorem c2_loop_error :
    pviLoop (fun se => _get_pvi_entries c2_fetch 1 se DEFAULT_TIMEOUT)
      (hintsOpt (some (.deviceT []))) [] nested_root_table = .error .timeoutError := by
  have s1 : _strip_number_from_string "sub" = some ("sub", none) := rfl
  have e1 : endsWithStr "SUB:PVI" ":PVI" = true := rfl
  simp [pviLoop, nested_root_table, s1, e1, dictGet, hintsOpt, get_type_hints_class,
    _parse_type, _strip_union, _strip_device_vector, isSignalType, c2_inner_error]

theorem c2_disc_error :
    _get_pvi_entries c2_fetch 2
      (.mk [] (some "ROOT:PVI") (some (.block [("pre", DeviceObj.block [])]))
        (some (.deviceT []))) 42
      = .error .timeoutError := by
  have h1 : endsWithStr "ROOT:PVI" ":PVI" = true := rfl
  have h2 : c2_fetch "ROOT:PVI" 42 = .ok nested_root_table := rfl
  exact get_pvi_entries_loop_error (some (.block [("pre", DeviceObj.block [])]))
    h1 h2 c2_loop_error

theorem c2_fill_eval :
    fill_pvi_entries_live c2_fetch 2 [("pre", DeviceObj.block [])] (.deviceT [])
      "ROOT:PVI" 42 = (.error .timeoutError, [("pre", DeviceObj.block [])]) :=
  fill_live_error _ c2_disc_error

/-- The tables of the timeout-sensitivity scenario: a root table with one
nested sub-table, empty below. -/
def c7_tables : String → PvaTable := fun pv =>
  if pv = "ROOT:PVI" then nested_root_table else []

/-- An oracle that succeeds exactly when the fetch carries timeout 42 (the
caller-supplied value in the scenario). -/
def c7_fetch : String → Nat → Except PviError PvaTable := fun pv t =>
  if t = 42 then .ok (c7_tables pv) else .error .timeoutError

def c7_root : PVIEntry :=
  .mk [] (some "ROOT:PVI") (some (.block [])) (some (.deviceT []))

def c7_sub_entry : PVIEntry :=
  .mk [] (some "SUB:PVI") (some (.block [])) (some (.deviceT []))

def c7_expected : PVIEntry :=
  .mk [("sub", .single c7_sub_entry)] (some "ROOT:PVI") (some (.block []))
    (some (.deviceT []))

theorem c7_inner_error :
    _get_pvi_entries c7_fetch 1
      (.mk [] (some "SUB:PVI") (some (.block [])) (some (.deviceT []))) DEFAULT_TIMEOUT
      = .error .timeoutError := by
  have h1 : endsWithStr "SUB:PVI" ":PVI" = true := rfl
  have h2 : c7_fetch "SUB:PVI" DEFAULT_TIMEOUT = .error .timeoutError := rfl
  exact get_pvi_entries_fetch_error 0 [] (some (.block [])) (some (.deviceT [])) h1 h2

theorem c7_loop_error :
    pviLoop (fun se => _get_pvi_entries c7_fetch 1 se DEFAULT_TIMEOUT)
      (hintsOpt (some (.deviceT []))) [] nested_root_table = .error .timeoutError := by
  have s1 : _strip_number_from_string "sub" = some ("sub", none) := rfl
  have e1 : endsWithStr "SUB:PVI" ":PVI" = true := rfl
  simp [pviLoop, nested_root_table, s1, e1, dictGet, hintsOpt, get_type_hints_class,
    _parse_type, _strip_union, _strip_device_vector, isSignalType, c7_inner_error]

theorem c7_disc_error :
    _get_pvi_entries c7_fetch 2 c7_root 42 = .error .timeoutError := by
  have h1 : endsWithStr "ROOT:PVI" ":PVI" = true := rfl
  have h2 : c7_fetch "ROOT:PVI" 42 = .ok nested_root_table := rfl
  exact get_pvi_entries_loop_error (some (.block [])) h1 h2 c7_loop_error

/-- The same tables served regardless of timeout. -/
def c7_fetch_const : String → Nat → Except PviError PvaTable :=
  fun pv _ => .ok (c7_tables pv)

theorem c7_const_inner :
    _get_pvi_entries c7_fetch_const 1
      (.mk [] (some "SUB:PVI") (some (.block [])) (some (.deviceT []))) DEFAULT_TIMEOUT
      = .ok c7_sub_entry := by
  have h1 : endsWithStr "SUB:PVI" ":PVI" = true := rfl
  have h2 : c7_fetch_const "SUB:PVI" DEFAULT_TIMEOUT = .ok [] := rfl
  have h3 : pviLoop (fun se => _get_pvi_entries c7_fetch_const 0 se DEFAULT_TIMEOUT)
      (hintsOpt (some (.deviceT []))) [] [] = .ok [] := rfl
  refine (get_pvi_entries_step (some (.block [])) h1 h2 h3).trans
    (verifyStep_ok ?_)
  simp [_verify_common_blocks, c7_sub_entry]

theorem c7_const_loop :
    pviLoop (fun se => _get_pvi_entries c7_fetch_const 1 se DEFAULT_TIMEOUT)
      (hintsOpt (some (.deviceT []))) [] nested_root_table
      = .ok [("sub", .single c7_sub_entry)] := by
  have s1 : _strip_number_from_string "sub" = some ("sub", none) := rfl
  have e1 : endsWithStr "SUB:PVI" ":PVI" = true := rfl
  simp [pviLoop, nested_root_table, s1, e1, dictGet, dictSet, hintsOpt, get_type_hints_class,
    _parse_type, _strip_union, _strip_device_vector, isSignalType, c7_const_inner]

theorem c7_const_verify : _verify_common_blocks c7_expected (.deviceT []) = .ok () := by
  simp [c7_expected, _verify_common_blocks, verifyHints, get_type_hints]

theorem c7_const_disc :
    _get_pvi_entries c7_fetch_const 2 c7_root 42 = .ok c7_expected := by
  have h1 : endsWithStr "ROOT:PVI" ":PVI" = true := rfl
  have h2 : c7_fetch_const "ROOT:PVI" 42 = .ok nested_root_table := rfl
  exact (get_pvi_entries_step (some (.block [])) h1 h2 c7_const_loop).trans
    (verifyStep_ok c7_const_verify)

/-! ### Claims -/

/-- C10: a discovered entry with an empty children mapping passes
`_verify_common_blocks` immediately, whatever the declared schema — the
`if not entry.sub_entries: return` guard fires before the schema is read, so
even non-optional declared attributes raise nothing at that level. -/
theorem c10_empty_children_verified (pvi_pv : Option String)
    (device : Option DeviceObj) (cdt : Option DeclType) (schema : DeclType) :
    _verify_common_blocks (.mk [] pvi_pv device cdt) schema = .ok () := by
  simp [_verify_common_blocks]

/-- Inputs for C1: a nonempty discovered entry lacking `motor`, against a
schema declaring `motor` with an `Optional[...]`-wrapped signal type. -/
def c1_entry : PVIEntry :=
  .mk [("other", .single (.mk [] none none none))] none none none

def c1_motor_type : DeclType := .optionalT (.signalT (some "float"))

def c1_schema : DeclType := .deviceT [("motor", c1_motor_type)]

/-- C1: the optional-attribute exemption never fires.  `_verify_common_blocks`
raises `MissingExpectedChild` for the absent attribute `motor` even though its
declared type is `Optional[...]`: the guard compares
`typing.get_origin(sub_device)` against the `typing.Optional` special form,
which `get_origin` can never return (`Optional[X]` is `Union[X, None]`, whose
origin is `typing.Union`), so the "is not Optional" conjunct is always true.
The error does carry the missing name and the declared hint, and it is raised
before any node is attached to the root (verification runs inside
`_get_pvi_entries`, before `_set_device_attributes`) — only the optional
exemption claimed by the spec is violated by the code. -/
theorem c1_optional_attribute_not_exempt :
    _verify_common_blocks c1_entry c1_schema
      = .error (.missingChild "motor" c1_motor_type)
  ∧ ∀ t : DeclType, get_origin t ≠ some PyOrigin.optionalForm := by
  constructor
  · simp [c1_entry, c1_schema, c1_motor_type, _verify_common_blocks, verifyHints,
      get_type_hints, dictGet, get_origin]
  · exact get_origin_ne_optionalForm

/-- C2: whenever the live entry point fails — for any oracle, fuel, root
state, schema, pv and timeout — the root device's attribute dict is returned
exactly as it was: `_get_pvi_entries` touches only the transient scaffold,
and `_set_device_attributes` (the only code that attaches attributes) runs
only after the whole tree has been discovered and verified. -/
theorem c2_failure_leaves_root_unchanged
    (fetch : String → Nat → Except PviError PvaTable) (fuel : Nat)
    (rootChildren : List (String × DeviceObj)) (rootType : DeclType)
    (root_pv : String) (timeout : Nat) (err : PviError)
    (h : (fill_pvi_entries_live fetch fuel rootChildren rootType root_pv timeout).1
      = .error err) :
    (fill_pvi_entries_live fetch fuel rootChildren rootType root_pv timeout).2
      = rootChildren := by
  cases hg : _get_pvi_entries fetch fuel
      (.mk [] (some root_pv) (some (.block rootChildren)) (some rootType)) timeout with
  | error e => rw [fill_live_error rootChildren hg]
  | ok entry =>
    rw [fill_live_ok rootChildren hg] at h
    exact absurd h (by simp)

/-- C2 witness: a nested-table fetch that times out, with a pre-existing
attribute on the root; the call fails with the timeout and the root dict is
unchanged. -/
theorem c2_failure_leaves_root_unchanged_witness :
    (fill_pvi_entries_live c2_fetch 2 [("pre", DeviceObj.block [])] (.deviceT [])
        "ROOT:PVI" 42).1 = .error .timeoutError
  ∧ (fill_pvi_entries_live c2_fetch 2 [("pre", DeviceObj.block [])] (.deviceT [])
        "ROOT:PVI" 42).2 = [("pre", DeviceObj.block [])] :=
  ⟨by rw [c2_fill_eval],
   c2_failure_leaves_root_unchanged c2_fetch 2 [("pre", DeviceObj.block [])]
     (.deviceT []) "ROOT:PVI" 42 .timeoutError (by rw [c2_fill_eval])⟩

/-- C3: `_pvi_mapping` matches the discovered access-mode set exactly against
the five supported frozensets — `{r,w}` builds the dual-address read/write
signal, `{rw}` the single-address read/write signal, `{r}` read-only, `{w}`
write-only, `{x}` the execute signal with no dtype — and every other set is a
`KeyError` on the dict lookup (`none`), fatal to the enclosing discovery
call. -/
theorem c3_access_mode_mapping :
    (∀ d rp wp, buildSignal {"r", "w"} d [rp, wp]
      = some (.rw d ("pva://" ++ rp) ("pva://" ++ wp)))
  ∧ (∀ d p, buildSignal {"rw"} d [p] = some (.rw d ("pva://" ++ p) ("pva://" ++ p)))
  ∧ (∀ d p, buildSignal {"r"} d [p] = some (.ro d ("pva://" ++ p)))
  ∧ (∀ d p, buildSignal {"w"} d [p] = some (.wo d ("pva://" ++ p)))
  ∧ (∀ d p, buildSignal {"x"} d [p] = some (.x ("pva://" ++ p)))
  ∧ ∀ ks : Finset String, ks ≠ {"r", "w"} → ks ≠ {"rw"} → ks ≠ {"r"} →
      ks ≠ {"w"} → ks ≠ {"x"} → _pvi_mapping ks = none := by
  refine ⟨fun d rp wp => rfl, fun d p => ?_, fun d p => ?_, fun d p => ?_,
    fun d p => ?_, fun ks h1 h2 h3 h4 h5 => ?_⟩
  · have n1 : ({"rw"} : Finset String) ≠ {"r", "w"} := by decide
    simp [buildSignal, _pvi_mapping, n1]
  · have n1 : ({"r"} : Finset String) ≠ {"r", "w"} := by decide
    have n2 : ({"r"} : Finset String) ≠ {"rw"} := by decide
    simp [buildSignal, _pvi_mapping, n1, n2]
  · have n1 : ({"w"} : Finset String) ≠ {"r", "w"} := by decide
    have n2 : ({"w"} : Finset String) ≠ {"rw"} := by decide
    have n3 : ({"w"} : Finset String) ≠ {"r"} := by decide
    simp [buildSignal, _pvi_mapping, n1, n2, n3]
  · have n1 : ({"x"} : Finset String) ≠ {"r", "w"} := by decide
    have n2 : ({"x"} : Finset String) ≠ {"rw"} := by decide
    have n3 : ({"x"} : Finset String) ≠ {"r"} := by decide
    have n4 : ({"x"} : Finset String) ≠ {"w"} := by decide
    simp [buildSignal, _pvi_mapping, n1, n2, n3, n4]
  · simp [_pvi_mapping, h1, h2, h3, h4, h5]

/-- C3 witness: the set `{d}` (descriptor mode alone) is none of the five
supported sets and its lookup is a `KeyError`. -/
theorem c3_access_mode_mapping_witness :
    (({"d"} : Finset String) ≠ {"r", "w"} ∧ ({"d"} : Finset String) ≠ {"rw"}
      ∧ ({"d"} : Finset String) ≠ {"r"} ∧ ({"d"} : Finset String) ≠ {"w"}
      ∧ ({"d"} : Finset String) ≠ {"x"})
  ∧ _pvi_mapping {"d"} = none :=
  ⟨⟨by decide, by decide, by decide, by decide, by decide⟩,
   c3_access_mode_mapping.2.2.2.2.2 {"d"} (by decide) (by decide) (by decide)
     (by decide) (by decide)⟩

/-- C4: the declared-type tier of `_parse_type` strips `Optional` and
`DeviceVector` wrappers (recording collection-ness), records the value type
of a parameterized signal type, and falls through to the nested-table and
bare-leaf tiers otherwise — but for a declared signal type carrying no
value-type parameter, `get_args(device_type)[0]` raises `IndexError` instead
of recording `None` (the sim builder guards the same lookup with
`args[0] if args else None`; the discovery path does not). -/
theorem c4_parse_type_policy :
    (∀ b n d, _parse_type b n (some (.signalT (some d)))
      = .ok ⟨false, true, some d, .signalT (some d)⟩)
  ∧ (∀ b n d, _parse_type b n (some (.vectorT (.signalT (some d))))
      = .ok ⟨true, true, some d, .signalT (some d)⟩)
  ∧ (∀ b n d, _parse_type b n (some (.optionalT (.vectorT (.signalT (some d)))))
      = .ok ⟨true, true, some d, .signalT (some d)⟩)
  ∧ (∀ b n h, _parse_type b n (some (.deviceT h)) = .ok ⟨false, false, none, .deviceT h⟩)
  ∧ (∀ b n h, _parse_type b n (some (.optionalT (.deviceT h)))
      = .ok ⟨false, false, none, .deviceT h⟩)
  ∧ (∀ b n h, _parse_type b n (some (.vectorT (.deviceT h)))
      = .ok ⟨true, false, none, .deviceT h⟩)
  ∧ (∀ n, _parse_type true n none = .ok ⟨n.isSome, false, none, .deviceT []⟩)
  ∧ (∀ n, _parse_type false n none = .ok ⟨false, true, none, .signalT none⟩)
  ∧ _parse_type false none (some (.signalT none)) = .error .indexError
  ∧ _parse_type false none (some (.optionalT (.signalT none))) = .error .indexError :=
  ⟨fun b n d => rfl, fun b n h => rfl, fun x y z => rfl, fun p q r => rfl,
   fun u v w => rfl, fun a c e => rfl, fun n => rfl, fun m => rfl, rfl, rfl⟩

/-- C6 counterexample: on the spec's example table the discovery succeeds,
but no collection `y` exists — `y1` stays a separate leaf under its full
name. -/
theorem c6_no_y_collection :
    (fill_pvi_entries_live c6_fetch 2 [] (.deviceT []) "ROOT:PVI" 10).1 = .ok ()
  ∧ dictGet (fill_pvi_entries_live c6_fetch 2 [] (.deviceT []) "ROOT:PVI" 10).2 "y"
      = none
  ∧ dictGet (fill_pvi_entries_live c6_fetch 2 [] (.deviceT []) "ROOT:PVI" 10).2 "y1"
      = some (.signal (.rw none "pva://PV:Y1" "pva://PV:Y1")) := by
  rw [c6_eval]
  exact ⟨rfl, rfl, rfl⟩

/-- C6 (amended): discovering the example table with no declared schema
yields three separate read/write endpoints `x`, `y1`, `y2` — numeric-suffix
aggregation applies only to nested tables (or schema-declared collections),
never to bare leaf signals (`_parse_type` tier 3 sets `is_device_vector =
False` for undeclared leaves). -/
theorem c6_three_separate_endpoints :
    fill_pvi_entries_live c6_fetch 2 [] (.deviceT []) "ROOT:PVI" 10
      = (.ok (), [("x", .signal (.rw none "pva://PV:X" "pva://PV:X")),
                  ("y1", .signal (.rw none "pva://PV:Y1" "pva://PV:Y1")),
                  ("y2", .signal (.rw none "pva://PV:Y2" "pva://PV:Y2"))]) :=
  c6_eval

/-- C5 counterexample: the name parser is not total — on `"a\nb2"` the regex
cannot match (`.` does not cross the newline, and `$` only matches at the
end), so the `assert match` raises `AssertionError` (`none`); and a trailing
digit run can parse to `0`, which is not a positive integer. -/
theorem c5_not_total_and_zero :
    _strip_number_from_string "a\nb2" = none
  ∧ _strip_number_from_string "det0" = some ("det", some 0) :=
  ⟨rfl, rfl⟩

/-- C5 (amended): on every newline-free input the parser succeeds and splits
the name into the prefix before the maximal trailing run of decimal digits
and that run parsed as a nonnegative integer (`none` when there is no
trailing digit run); the prefix is empty only when the entire name consists
of digits. -/
theorem c5_newline_free_split (s : String) (h : noNl s.data = true) :
    _strip_number_from_string s = some (splitTrailingDigits s)
  ∧ ((splitTrailingDigits s).1 = "" → s.data.all isDigitChar = true) := by
  refine ⟨strip_number_eq_split s h, fun hpre => ?_⟩
  have hnil : namePart s.data = [] := congrArg String.data hpre
  have hall := digitsSuffix_all s.data
  have happ := namePart_append_digitsSuffix s.data
  rw [hnil, List.nil_append] at happ
  rw [← happ]
  exact hall

/-- C5 witness: at `"det12"` the hypothesis holds and the parser returns
`("det", 12)`. -/
theorem c5_newline_free_split_witness :
    noNl "det12".data = true
  ∧ (_strip_number_from_string "det12" = some (splitTrailingDigits "det12")
      ∧ ((splitTrailingDigits "det12").1 = "" → "det12".data.all isDigitChar = true))
  ∧ _strip_number_from_string "det12" = some ("det", some 12) :=
  ⟨by decide, c5_newline_free_split "det12" (by decide), rfl⟩

/-- C7: the nested recursive `_get_pvi_entries` call passes no timeout, so
every nested table fetch runs with `DEFAULT_TIMEOUT` instead of the caller's
value.  With an oracle that succeeds at the caller's timeout 42 for every pv,
discovery of a nested table still fails (the nested fetch arrives with
`DEFAULT_TIMEOUT = 10`); with the same tables served at any timeout it
succeeds, isolating the substituted timeout as the only cause. -/
theorem c7_nested_fetch_gets_default_timeout :
    (∀ pv, c7_fetch pv 42 = .ok (c7_tables pv))
  ∧ _get_pvi_entries c7_fetch 2 c7_root 42 = .error .timeoutError
  ∧ _get_pvi_entries c7_fetch_const 2 c7_root 42 = .ok c7_expected :=
  ⟨fun _ => rfl, c7_disc_error, c7_const_disc⟩

/-- C8: for every declared attribute whose (union-stripped) type is a
`DeviceVector`, the sim builder constructs exactly two members, at indices 1
and 2, built by the very same expression — and when the element type is not a
signal class (a node type), each member is the node built by the identical
recursion `_sim_common_blocks(·, stripped_type)` on the element type. -/
theorem c8_sim_collection_two_identical (sub_name : String) (t : DeclType)
    (h : (_strip_device_vector (_strip_union t)).1 = true) :
    ∃ e : SimDevice, simSub sub_name t = .vector [(1, e), (2, e)]
      ∧ (isSignalType (_strip_device_vector (_strip_union t)).2 = false →
          e = .node (simBlocks (_strip_device_vector (_strip_union t)).2)) := by
  by_cases hs : isSignalType (_strip_device_vector (_strip_union t)).2 = true
  · refine ⟨.simSignal (signalArg (_strip_device_vector (_strip_union t)).2) sub_name,
      ?_, ?_⟩
    · simp [simSub, h, hs]
    · intro hfalse
      rw [hs] at hfalse
      exact absurd hfalse (by simp)
  · rw [Bool.not_eq_true] at hs
    refine ⟨.node (simBlocks (_strip_device_vector (_strip_union t)).2), ?_, fun _ => rfl⟩
    simp [simSub, h, hs]

/-- C8 witness: the declared collection `DeviceVector[Block]` with
`Block = {s: Signal[int]}` produces exactly the two identical node members at
indices 1 and 2. -/
theorem c8_sim_collection_two_identical_witness :
    (_strip_device_vector (_strip_union
        (.vectorT (.deviceT [("s", .signalT (some "int"))])))).1 = true
  ∧ ∃ e : SimDevice,
      simSub "m" (.vectorT (.deviceT [("s", .signalT (some "int"))]))
        = .vector [(1, e), (2, e)]
      ∧ (isSignalType (_strip_device_vector (_strip_union
            (.vectorT (.deviceT [("s", .signalT (some "int"))])))).2 = false →
          e = .node (simBlocks (_strip_device_vector (_strip_union
            (.vectorT (.deviceT [("s", .signalT (some "int"))])))).2)) :=
  ⟨rfl, c8_sim_collection_two_identical "m"
    (.vectorT (.deviceT [("s", .signalT (some "int"))])) rfl⟩

/-- The positive side of the sim/discover comparison: for every strict schema
(well-formed, block attributes declared as bare device classes or
`DeviceVector[...]` of them) and every oracle serving a table tree that is
schema-equivalent to it, the live discover path succeeds and attaches to a
fresh root a child tree whose attribute names and collection/non-collection
shape equal, at every level, those of the tree the sim path builds from the
same declared type. -/
theorem fill_live_matches_sim_of_strict
    (fetch : String → Nat → Except PviError PvaTable) (fuel tmo : Nat)
    (pv : String) (hints : List (String × DeclType))
    (hstrict : strictHints hints = true)
    (hserve : ServesF fetch fuel tmo pv hints) :
    ∃ filled,
      fill_pvi_entries_live fetch fuel [] (.deviceT hints) pv tmo
        = (.ok (), filled)
      ∧ filled.map (fun p => (p.1, shapeOfDevice p.2))
          = (fill_pvi_entries_sim (.deviceT hints)).map
              (fun p => (p.1, shapeOfSim p.2))
      ∧ filled.map (fun p => p.1) = hints.map (fun p => p.1) := by
  have hwf := strictHints_imp_wfHints hints hstrict
  obtain ⟨subs', hok, _, hshape, hnames⟩ :=
    discovery_matches fuel fetch tmo pv hints hstrict hserve (some (.block []))
  have hnd : ((materializeSubs subs').map (fun p => p.1)).Nodup := by
    rw [materializeSubs_map_fst, hnames]
    exact wfHints_names_nodup hwf
  have hfold := foldl_dictSet_fresh (materializeSubs subs') [] (fun p _ => rfl) hnd
  have hfill := fill_live_ok [] hok
  refine ⟨materializeSubs subs', ?_, ?_, ?_⟩
  · rw [hfill]
    simp [_set_device_attributes, setAttrs, hfold, blockChildren]
  · have h1 : (materializeSubs subs').map (fun p => (p.1, shapeOfDevice p.2))
        = simShapeOfHints hints := hshape
    rw [h1]
    simp [simShapeOfHints, fill_pvi_entries_sim, simBlocks]
  · rw [materializeSubs_map_fst]
    exact hnames

/-- `verifyHints` on a declared attribute whose stored single entry fails its
own verification: the error propagates. -/
theorem verifyHints_single_error {full : List (String × PVISub)} {n : String}
    {t : DeclType} {e' : PVIEntry} {err : PviError}
    (rest : List (String × DeclType))
    (h1 : n ≠ "_name") (h2 : n ≠ "parent")
    (hget : dictGet full n = some (.single e'))
    (hv : _verify_common_blocks e' t = .error err) :
    verifyHints full ((n, t) :: rest) = .error err := by
  simp only [verifyHints]
  rw [if_neg (by simp [h1, h2])]
  rw [if_neg (by simp [hget])]
  split
  · next heq => rw [hget] at heq; exact absurd heq (by simp)
  · next m heq => rw [hget] at heq; exact absurd heq (by simp)
  · next e2 heq =>
    rw [hget] at heq
    cases heq
    rw [hv]

/-- The inner block type of the C9 schema: `Block = {s: Signal[float]}`. -/
def c9_block_hints : List (String × DeclType) := [("s", .signalT (some "float"))]

/-- The C9 schema: one block attribute declared `blk: Optional[Block]`. -/
def c9_schema : List (String × DeclType) :=
  [("blk", .optionalT (.deviceT c9_block_hints))]

/-- The C9 oracle: the root table at `P:PVI` holds the single nested table
reference `blk -> B:PVI`, and `B:PVI` holds the single endpoint row `s`,
exactly mirroring the schema. -/
def c9_fetch : String → Nat → Except PviError PvaTable := fun pv _ =>
  if pv = "P:PVI" then .ok [("blk", [("d", "B:PVI")])]
  else .ok [("s", [("rw", "PV:S")])]

theorem c9_fetch_serves_inner :
    ServesF c9_fetch 1 DEFAULT_TIMEOUT "B:PVI" c9_block_hints := by
  show ServesF c9_fetch (0 + 1) DEFAULT_TIMEOUT "B:PVI" c9_block_hints
  rw [servesF_succ]
  refine ⟨by decide, [[("s", [("rw", "PV:S")])]], rfl, ?_⟩
  show RowsF c9_fetch 0 [("s", DeclType.signalT (some "float"))]
    [[("s", [("rw", "PV:S")])]]
  rw [rowsF_cons_iff]
  refine ⟨?_, rowsF_nil _ _⟩
  rw [AttrF]
  have hst : stripOf (DeclType.signalT (some "float"))
      = (false, DeclType.signalT (some "float")) := rfl
  rw [hst]
  exact ⟨[("rw", "PV:S")], rfl, Or.inl ⟨"PV:S", Or.inl rfl, rfl⟩⟩

theorem c9_fetch_serves : ServesF c9_fetch 2 10 "P:PVI" c9_schema := by
  show ServesF c9_fetch (1 + 1) 10 "P:PVI" c9_schema
  rw [servesF_succ]
  refine ⟨by decide, [[("blk", [("d", "B:PVI")])]], rfl, ?_⟩
  show RowsF c9_fetch 1 [("blk", DeclType.optionalT (.deviceT c9_block_hints))]
    [[("blk", [("d", "B:PVI")])]]
  rw [rowsF_cons_iff]
  refine ⟨?_, rowsF_nil _ _⟩
  rw [AttrF]
  have hst : stripOf (DeclType.optionalT (.deviceT c9_block_hints))
      = (false, DeclType.deviceT c9_block_hints) := rfl
  rw [hst]
  exact ⟨"d", "B:PVI", rfl, rfl, c9_fetch_serves_inner⟩

/-- C9: the claimed sim/discover shape equivalence breaks on an
`Optional[...]`-wrapped block attribute.  For the schema
`{blk: Optional[Block]}` with `Block = {s: Signal[float]}` and an oracle
serving exactly the mirroring table tree (a valid discovered table), the sim
path builds the expected one-block tree, but the live path raises `TypeError`
and produces no tree at all: `_verify_common_blocks` recurses with the raw,
unstripped hint `Optional[Block]` (lines 91-92) and hands it to
`typing.get_type_hints` (line 78), which rejects a parameterized alias.  For
schemas whose block attributes are declared as bare device classes or
`DeviceVector[...]` of them the equivalence does hold
(`fill_live_matches_sim_of_strict`). -/
theorem c9_optional_block_breaks_shape_equality :
    ServesF c9_fetch 2 10 "P:PVI" c9_schema
    ∧ fill_pvi_entries_sim (.deviceT c9_schema)
        = [("blk", SimDevice.node [("s", SimDevice.simSignal (some "float") "s")])]
    ∧ fill_pvi_entries_live c9_fetch 2 [] (.deviceT c9_schema) "P:PVI" 10
        = (.error .typeErrorNotClass, []) := by
  refine ⟨c9_fetch_serves, ?_, ?_⟩
  · simp [fill_pvi_entries_sim, simBlocks, c9_schema, c9_block_hints, simHints,
      simSub, isSignalType, signalArg, get_args_dtype, _strip_union,
      _strip_device_vector]
  · have hstrict_inner : strictHints c9_block_hints = true := by
      simp only [c9_block_hints, strictHints, strictAttr]
      decide
    obtain ⟨subs', hok, _, _, hnames⟩ :=
      discovery_matches 1 c9_fetch DEFAULT_TIMEOUT "B:PVI" c9_block_hints
        hstrict_inner c9_fetch_serves_inner (some (.block []))
    have hsubs_ne : subs'.isEmpty = false := by
      cases subs' with
      | nil => simp [c9_block_hints] at hnames
      | cons a l => rfl
    have hverr : _verify_common_blocks
        (.mk subs' (some "B:PVI") (some (.block [])) (some (.deviceT c9_block_hints)))
        (.optionalT (.deviceT c9_block_hints)) = .error .typeErrorNotClass :=
      verify_unfold_error _ _ _ hsubs_ne rfl
    have hstep := @loop_step_block
      (fun se => _get_pvi_entries c9_fetch 1 se DEFAULT_TIMEOUT)
      c9_schema [] [] "blk" (.optionalT (.deviceT c9_block_hints)) c9_block_hints
      "d" "B:PVI"
      (.mk subs' (some "B:PVI") (some (.block [])) (some (.deviceT c9_block_hints)))
      (by decide) rfl rfl rfl hok rfl
    have h3 : pviLoop (fun se => _get_pvi_entries c9_fetch 1 se DEFAULT_TIMEOUT)
        (hintsOpt (some (.deviceT c9_schema))) [] [("blk", [("d", "B:PVI")])]
        = .ok [("blk", PVISub.single
            (.mk subs' (some "B:PVI") (some (.block []))
              (some (.deviceT c9_block_hints))))] := by
      show pviLoop (fun se => _get_pvi_entries c9_fetch 1 se DEFAULT_TIMEOUT)
        c9_schema [] [("blk", [("d", "B:PVI")])] = _
      rw [hstep]
      simp [pviLoop]
    have h1 : endsWithStr "P:PVI" ":PVI" = true := rfl
    have h2 : c9_fetch "P:PVI" 10 = .ok [("blk", [("d", "B:PVI")])] := rfl
    have hdisc := get_pvi_entries_step (some (.block [])) h1 h2 h3
    have hvtop : _verify_common_blocks
        (.mk [("blk", PVISub.single
            (.mk subs' (some "B:PVI") (some (.block []))
              (some (.deviceT c9_block_hints))))]
          (some "P:PVI") (some (.block [])) (some (.deviceT c9_schema)))
        (.deviceT c9_schema) = .error .typeErrorNotClass := by
      have hns : ([("blk", PVISub.single
          (.mk subs' (some "B:PVI") (some (.block []))
            (some (.deviceT c9_block_hints))))] :
          List (String × PVISub)).isEmpty = false := rfl
      rw [verify_unfold_ok (some "P:PVI") (some (.block []))
        (some (.deviceT c9_schema)) hns
        (rfl : get_type_hints (.deviceT c9_schema) = .ok c9_schema)]
      show verifyHints _ ([("blk", DeclType.optionalT (.deviceT c9_block_hints))])
        = _
      exact verifyHints_single_error [] (by decide) (by decide) rfl hverr
    have htop : _get_pvi_entries c9_fetch 2
        (.mk [] (some "P:PVI") (some (.block [])) (some (.deviceT c9_schema))) 10
        = .error .typeErrorNotClass := by
      rw [hdisc]
      exact verifyStep_error hvtop
    rw [fill_live_error [] htop]

end Pvi
